import Mathlib

/-!
Verification of the qr-backend driver-lookup service (src/app.py).

Python strings are modelled as lists of Unicode code points (`PyStr := List Nat`),
byte strings as lists of byte values (`List Nat`, each < 256).  Pure Python string
helpers (`strip`, `lower`, `upper`, `replace`, containment) are embedded as
executable Lean functions with the same semantics on the code-point lists; where a
Python primitive is Unicode-aware beyond Latin-1 (`str.upper`, `unicodedata`), the
embedding covers the ASCII and Latin-1 ranges that the application's data and
header constants exercise, and leaves other code points unchanged.

The module-level mutable cache (`_df_cache`, `_df_at`) is embedded as an explicit
`CacheState` threaded through `load_df`; the network fetch performed by
`requests.get` and the spreadsheet parser `pd.read_excel` are external
collaborators and enter the model as an explicit response value and a parse
oracle.  `time.time()` enters as an explicit `now : Int`.
-/

/-- A Python `str`, as its list of Unicode code points. -/
abbrev PyStr := List Nat

/-- Code points of a Lean string literal, for readable embeddings of Python
string literals. -/
def pstr (s : String) : PyStr := s.data.map Char.toNat

/-- Python whitespace recognised by `str.strip` / `\s` (ASCII range: space, tab,
newline, vertical tab, form feed, carriage return). -/
def isSpaceCp (n : Nat) : Bool :=
  n == 32 || n == 9 || n == 10 || n == 11 || n == 12 || n == 13

/-- Python `str.strip()`: drop leading and trailing whitespace. -/
def pystrip (s : PyStr) : PyStr :=
  (((s.dropWhile isSpaceCp).reverse).dropWhile isSpaceCp).reverse

/-- ASCII-range `str.lower` on one code point. -/
def toLowerCp (n : Nat) : Nat := if 65 ≤ n ∧ n ≤ 90 then n + 32 else n

/-- Python `str.lower()` (ASCII range; the application lowers only scheme
prefixes and HTTP content types, which are ASCII). -/
def pylower (s : PyStr) : PyStr := s.map toLowerCp

/-- Python `str.upper` on one code point, covering ASCII and Latin-1: `a`-`z`
and the accented range 224-254 (except the division sign 247) map down by 32,
and the sharp s 223 expands to `SS`.  Other code points are unchanged. -/
def upperCp (n : Nat) : List Nat :=
  if 97 ≤ n ∧ n ≤ 122 then [n - 32]
  else if n == 223 then [83, 83]
  else if 224 ≤ n ∧ n ≤ 254 ∧ n ≠ 247 then [n - 32]
  else [n]

/-- Python `str.upper()` (ASCII/Latin-1 model). -/
def pyupper (s : PyStr) : PyStr := s.flatMap upperCp

/-- `[A-Z0-9]`: the characters kept by `normalize_doc`'s regex. -/
def isDocCp (n : Nat) : Bool := (65 ≤ n && n ≤ 90) || (48 ≤ n && n ≤ 57)

/-- `normalize_doc` from src/app.py: strip, uppercase, then delete every
character outside `[A-Z0-9]` (`re.sub(r"[^A-Z0-9]", "", s)` is the filter). -/
def normalize_doc (s : PyStr) : PyStr :=
  (pyupper (pystrip s)).filter isDocCp

/-- One step of `strip_accents` from src/app.py: `unicodedata.normalize("NFD", s)`
followed by dropping combining marks, restricted to one code point.  Over the
Latin-1 range this sends each accented letter to its base letter and leaves
every non-decomposable code point (including ASCII) unchanged. -/
def stripAccentCp (n : Nat) : Nat :=
  if 192 ≤ n ∧ n ≤ 197 then 65        -- À Á Â Ã Ä Å → A
  else if n = 199 then 67             -- Ç → C
  else if 200 ≤ n ∧ n ≤ 203 then 69   -- È É Ê Ë → E
  else if 204 ≤ n ∧ n ≤ 207 then 73   -- Ì Í Î Ï → I
  else if n = 209 then 78             -- Ñ → N
  else if 210 ≤ n ∧ n ≤ 214 then 79   -- Ò Ó Ô Õ Ö → O
  else if 217 ≤ n ∧ n ≤ 220 then 85   -- Ù Ú Û Ü → U
  else if n = 221 then 89             -- Ý → Y
  else if 224 ≤ n ∧ n ≤ 229 then 97   -- à á â ã ä å → a
  else if n = 231 then 99             -- ç → c
  else if 232 ≤ n ∧ n ≤ 235 then 101  -- è é ê ë → e
  else if 236 ≤ n ∧ n ≤ 239 then 105  -- ì í î ï → i
  else if n = 241 then 110            -- ñ → n
  else if 242 ≤ n ∧ n ≤ 246 then 111  -- ò ó ô õ ö → o
  else if 249 ≤ n ∧ n ≤ 252 then 117  -- ù ú û ü → u
  else if n = 253 ∨ n = 255 then 121  -- ý ÿ → y
  else n

/-- `strip_accents` from src/app.py (Latin-1 model of NFD + drop-Mn). -/
def strip_accents (s : PyStr) : PyStr := s.map stripAccentCp

/-- `re.sub(r"\s+", " ", s)`, with a flag recording whether the previous
character was whitespace: each maximal whitespace run becomes one space. -/
def collapseWsAux (prevSpace : Bool) : PyStr → PyStr
  | [] => []
  | c :: rest =>
    if isSpaceCp c then
      if prevSpace then collapseWsAux true rest
      else 32 :: collapseWsAux true rest
    else c :: collapseWsAux false rest

/-- `re.sub(r"\s+", " ", s)`: collapse every maximal whitespace run to one
space. -/
def collapseWs (s : PyStr) : PyStr := collapseWsAux false s

/-- `norm_header` from src/app.py: strip, uppercase, strip accents, collapse
whitespace. -/
def norm_header (s : PyStr) : PyStr :=
  collapseWs (strip_accents (pyupper (pystrip s)))

/-- Python `str.replace(p, r)`: replace every occurrence of `p` by `r`,
scanning left to right, occurrences non-overlapping.  (The application never
calls it with an empty pattern; for `p = []` this returns `t` unchanged.) -/
def replaceAll (p r : PyStr) (t : PyStr) : PyStr :=
  if h : p ≠ [] ∧ p <+: t then
    r ++ replaceAll p r (t.drop p.length)
  else
    match t with
    | [] => []
    | c :: t2 => c :: replaceAll p r t2
termination_by t.length
decreasing_by
  · have hp : 1 ≤ p.length := List.length_pos.mpr h.1
    have ht : p.length ≤ t.length := h.2.length_le
    simp only [List.length_drop]
    omega
  · simp

/-- The scheme test `u.lower().startswith(("http://", "https://"))`. -/
def hasScheme (u : PyStr) : Bool :=
  (pstr "http://").isPrefixOf (pylower u) || (pstr "https://").isPrefixOf (pylower u)

/-- `f"{u}{'&' if '?' in u else '?'}download=1"`: append the `download=1`
query parameter with the right separator. -/
def appendDownload (u : PyStr) : PyStr :=
  u ++ (if 63 ∈ u then pstr "&" else pstr "?") ++ pstr "download=1"

/-- The scheme-defaulting step of `od_to_download`:
`if not u.lower().startswith(("http://","https://")): u = "https://" + u`. -/
def addScheme (u : PyStr) : PyStr :=
  if hasScheme u then u else pstr "https://" ++ u

/-- The provider-rewrite body of `od_to_download`, applied after stripping
and scheme defaulting.  In the consumer-OneDrive branch,
`replaceAll (pstr "view.aspx") … (replaceAll (pstr "redir") … u)` is the
Python `u.replace("redir","download").replace("view.aspx","download.aspx")`
(referred to as `v` below, spelled out at each use). -/
def od_body (u : PyStr) : PyStr :=
  if pstr "sharepoint.com" <:+: u then
    if pstr "?web=1" <:+: u then replaceAll (pstr "?web=1") (pstr "?download=1") u
    else if ¬ pstr "download=1" <:+: u then appendDownload u
    else u
  else if pstr "onedrive.live.com" <:+: u then
    if ¬ pstr "download=1" <:+:
        replaceAll (pstr "view.aspx") (pstr "download.aspx")
          (replaceAll (pstr "redir") (pstr "download") u) then
      appendDownload (replaceAll (pstr "view.aspx") (pstr "download.aspx")
        (replaceAll (pstr "redir") (pstr "download") u))
    else
      replaceAll (pstr "view.aspx") (pstr "download.aspx")
        (replaceAll (pstr "redir") (pstr "download") u)
  else u

/-- `od_to_download` from src/app.py: rewrite a sharing URL into a direct
download URL. -/
def od_to_download (url : PyStr) : PyStr :=
  od_body (addScheme (pystrip url))

/-! ### SHA-256, HMAC and base64url (`hashlib` / `hmac` / `base64`)

Byte strings are `List Nat` with entries below 256; 32-bit words are `Nat`
taken modulo `2^32 = 4294967296`. -/

/-- Right rotation of a 32-bit word by `n`. -/
def rotr32 (n x : Nat) : Nat := x / 2 ^ n + x % 2 ^ n * 2 ^ (32 - n)

/-- The 64 SHA-256 round constants (decimal). -/
def shaK : List Nat :=
  [1116352408, 1899447441, 3049323471, 3921009573, 961987163, 1508970993,
   2453635748, 2870763221, 3624381080, 310598401, 607225278, 1426881987,
   1925078388, 2162078206, 2614888103, 3248222580, 3835390401, 4022224774,
   264347078, 604807628, 770255983, 1249150122, 1555081692, 1996064986,
   2554220882, 2821834349, 2952996808, 3210313671, 3336571891, 3584528711,
   113926993, 338241895, 666307205, 773529912, 1294757372, 1396182291,
   1695183700, 1986661051, 2177026350, 2456956037, 2730485921, 2820302411,
   3259730800, 3345764771, 3516065817, 3600352804, 4094571909, 275423344,
   430227734, 506948616, 659060556, 883997877, 958139571, 1322822218,
   1537002063, 1747873779, 1955562222, 2024104815, 2227730452, 2361852424,
   2428436474, 2756734187, 3204031479, 3329325298]

/-- The SHA-256 initial hash value (decimal). -/
def shaInit : List Nat :=
  [1779033703, 3144134277, 1013904242, 2773480762,
   1359893119, 2600822924, 528734635, 1541459225]

/-- SHA-256 padding: append `0x80`, zeros, and the 64-bit big-endian bit
length, reaching a multiple of 64 bytes. -/
def shaPad (m : List Nat) : List Nat :=
  let L := 8 * m.length
  m ++ [0x80] ++ List.replicate ((119 - m.length % 64) % 64) 0 ++
    [L / 2 ^ 56 % 256, L / 2 ^ 48 % 256, L / 2 ^ 40 % 256, L / 2 ^ 32 % 256,
     L / 2 ^ 24 % 256, L / 2 ^ 16 % 256, L / 2 ^ 8 % 256, L % 256]

/-- Split a byte list into 64-byte chunks, with fuel for structural
recursion (each step consumes at least one element, so the list's length is
enough fuel). -/
def chunks64Fuel : Nat → List Nat → List (List Nat)
  | 0, _ => []
  | _, [] => []
  | fuel + 1, c :: l => (c :: l).take 64 :: chunks64Fuel fuel ((c :: l).drop 64)

/-- Split a byte list into 64-byte chunks. -/
def chunks64 (l : List Nat) : List (List Nat) := chunks64Fuel l.length l

/-- Big-endian bytes to 32-bit words (4 bytes each). -/
def bytesToWords : List Nat → List Nat
  | a :: b :: c :: d :: rest =>
    (((a * 256 + b) * 256 + c) * 256 + d) :: bytesToWords rest
  | _ => []

/-- A 32-bit word to 4 big-endian bytes. -/
def wordToBytes (w : Nat) : List Nat :=
  [w / 2 ^ 24 % 256, w / 2 ^ 16 % 256, w / 2 ^ 8 % 256, w % 256]

/-- SHA-256 message-schedule extension: grow the 16 block words to 64. -/
def schedule (w0 : List Nat) : List Nat :=
  (List.range 48).foldl
    (fun w _ =>
      let s0 := rotr32 7 (w.getD (w.length - 15) 0) ^^^
                rotr32 18 (w.getD (w.length - 15) 0) ^^^
                w.getD (w.length - 15) 0 / 2 ^ 3
      let s1 := rotr32 17 (w.getD (w.length - 2) 0) ^^^
                rotr32 19 (w.getD (w.length - 2) 0) ^^^
                w.getD (w.length - 2) 0 / 2 ^ 10
      w ++ [(w.getD (w.length - 16) 0 + s0 + w.getD (w.length - 7) 0 + s1) % 2 ^ 32])
    w0

/-- One SHA-256 round on the working state. -/
def shaRound (st : Nat × Nat × Nat × Nat × Nat × Nat × Nat × Nat) (kw : Nat × Nat) :
    Nat × Nat × Nat × Nat × Nat × Nat × Nat × Nat :=
  match st, kw with
  | (a, b, c, d, e, f, g, h), (k, w) =>
    let S1 := rotr32 6 e ^^^ rotr32 11 e ^^^ rotr32 25 e
    let ch := e &&& f ^^^ (4294967295 - e) &&& g
    let t1 := (h + S1 + ch + k + w) % 2 ^ 32
    let S0 := rotr32 2 a ^^^ rotr32 13 a ^^^ rotr32 22 a
    let mj := a &&& b ^^^ a &&& c ^^^ b &&& c
    let t2 := (S0 + mj) % 2 ^ 32
    ((t1 + t2) % 2 ^ 32, a, b, c, (d + t1) % 2 ^ 32, e, f, g)

/-- SHA-256 compression of one 16-word block into the 8-word chaining value. -/
def compress (H : List Nat) (block : List Nat) : List Nat :=
  let W := schedule block
  let st0 := (H.getD 0 0, H.getD 1 0, H.getD 2 0, H.getD 3 0,
              H.getD 4 0, H.getD 5 0, H.getD 6 0, H.getD 7 0)
  let s := (shaK.zip W).foldl shaRound st0
  [(H.getD 0 0 + s.1) % 2 ^ 32, (H.getD 1 0 + s.2.1) % 2 ^ 32,
   (H.getD 2 0 + s.2.2.1) % 2 ^ 32, (H.getD 3 0 + s.2.2.2.1) % 2 ^ 32,
   (H.getD 4 0 + s.2.2.2.2.1) % 2 ^ 32, (H.getD 5 0 + s.2.2.2.2.2.1) % 2 ^ 32,
   (H.getD 6 0 + s.2.2.2.2.2.2.1) % 2 ^ 32, (H.getD 7 0 + s.2.2.2.2.2.2.2) % 2 ^ 32]

/-- `hashlib.sha256(msg).digest()`: the 32-byte SHA-256 digest. -/
def sha256 (msg : List Nat) : List Nat :=
  ((chunks64 (shaPad msg)).foldl (fun H blk => compress H (bytesToWords blk))
    shaInit).flatMap wordToBytes

/-- HMAC key preprocessing: hash keys longer than the 64-byte block, then
zero-pad to the block size. -/
def hmacKeyBlock (key : List Nat) : List Nat :=
  let k0 := if 64 < key.length then sha256 key else key
  k0 ++ List.replicate (64 - k0.length) 0

/-- `hmac.new(key, msg, hashlib.sha256).digest()`. -/
def hmac_sha256 (key msg : List Nat) : List Nat :=
  sha256 (((hmacKeyBlock key).map (fun b => b ^^^ 0x5c)) ++
    sha256 (((hmacKeyBlock key).map (fun b => b ^^^ 0x36)) ++ msg))

/-- UTF-8 encoding of a code-point string (`str.encode("utf-8")`). -/
def utf8Encode (s : PyStr) : List Nat :=
  s.flatMap fun cp =>
    if cp < 0x80 then [cp]
    else if cp < 0x800 then [0xc0 + cp / 64, 0x80 + cp % 64]
    else if cp < 0x10000 then
      [0xe0 + cp / 4096, 0x80 + cp / 64 % 64, 0x80 + cp % 64]
    else
      [0xf0 + cp / 262144, 0x80 + cp / 4096 % 64, 0x80 + cp / 64 % 64, 0x80 + cp % 64]

/-- One base64 digit in the URL-safe alphabet `A-Z a-z 0-9 - _`. -/
def b64char (i : Nat) : Nat :=
  if i < 26 then 65 + i
  else if i < 52 then 71 + i
  else if i < 62 then i - 4
  else if i = 62 then 45
  else 95

/-- URL-safe base64 of a byte list, with `=` (61) padding. -/
def b64groups : List Nat → List Nat
  | a :: b :: c :: rest =>
    b64char (a / 4) :: b64char (a % 4 * 16 + b / 16) ::
      b64char (b % 16 * 4 + c / 64) :: b64char (c % 64) :: b64groups rest
  | [a, b] =>
    [b64char (a / 4), b64char (a % 4 * 16 + b / 16), b64char (b % 16 * 4), 61]
  | [a] => [b64char (a / 4), b64char (a % 4 * 16), 61, 61]
  | [] => []

/-- `b64url` from src/app.py: URL-safe base64 with trailing `=` stripped. -/
def b64url (b : List Nat) : PyStr :=
  ((b64groups b).reverse.dropWhile (· == 61)).reverse

/-- The token the service expects for an identifier (spec §4.2 `sign`):
`b64url(hmac.new(SECRET_KEY, ndoc.encode("utf-8"), hashlib.sha256).digest())`
with `ndoc = normalize_doc(doc)`, as computed inline in `driver`
(src/app.py lines 117-119). -/
def sign (secret : List Nat) (doc : PyStr) : PyStr :=
  b64url (hmac_sha256 secret (utf8Encode (normalize_doc doc)))

/-- The `driver` token gate (spec §4.2 `verify`): the handler proceeds iff
`t != b64url(mac)` is false, i.e. plain string equality with the recomputed
signature. -/
def verify (secret : List Nat) (doc t : PyStr) : Bool :=
  t == sign secret doc

/-! ### Document cache (`_df_cache`, `_df_at`, `load_df`) -/

/-- The outcome of the `requests.get` call in `load_df`: HTTP status,
`content-type` header, response bytes, and decoded text. -/
structure FetchResp where
  status : Nat
  contentType : PyStr
  content : List Nat
  text : PyStr
deriving DecidableEq

/-- The exceptions the handler pipeline can raise and never catches:
from `load_df`, `requests.HTTPError` from `raise_for_status()`, the explicit
`RuntimeError` for non-XLSX payloads (carrying the lowered content type and
the 200-character text sample with newlines replaced by spaces), or an
exception from `pd.read_excel`; and from the lookup, the pandas `IndexError`
raised by `df.iloc[:, doc_idx]` (app.py line 125) when the resolved
identifier column position is not below the document's column count
(carrying that position). -/
inductive LoadErr where
  | httpError (status : Nat)
  | notXlsx (ct sample : PyStr)
  | parseError (msg : PyStr)
  | indexError (idx : Nat)
deriving DecidableEq

/-- The module-level cache globals `_df_cache` (initially `None`) and
`_df_at` (initially `0.0`), as explicit state. -/
structure CacheState (α : Type) where
  df_cache : Option α
  df_at : Int
deriving DecidableEq

/-- The fetch-and-parse path of `load_df` from src/app.py, from
`r = requests.get(...)` on: `raise_for_status()`, the HTML/XLSX shape check
on content type and `PK` magic bytes, `pd.read_excel`, and the cache update
`_df_cache, _df_at = df, now`.  `now` is `time.time()`, `resp` the response
the network would deliver to this call's `requests.get`, `parse` the
`pd.read_excel` oracle.  Returns the result (document or raised exception),
the new cache state, and whether a network fetch was performed.  The URL
construction (`od_to_download` plus the `_cb` cache-busting parameter) does
not affect the modelled outcome and is absorbed into `resp`. -/
def loadFetch (now : Int) (resp : FetchResp)
    (parse : List Nat → Except LoadErr α) (s : CacheState α) :
    Except LoadErr α × CacheState α × Bool :=
  if 400 ≤ resp.status ∧ resp.status < 600 then
    (Except.error (LoadErr.httpError resp.status), s, true)
  else
    if pstr "html" <:+: pylower resp.contentType ∨
       (¬ resp.content.take 2 = [80, 75] ∧
        ¬ pstr "spreadsheetml" <:+: pylower resp.contentType) then
      (Except.error (LoadErr.notXlsx (pylower resp.contentType)
        ((resp.text.take 200).map fun c => if c = 10 then 32 else c)), s, true)
    else
      match parse resp.content with
      | Except.error e => (Except.error e, s, true)
      | Except.ok df => (Except.ok df, ⟨some df, now⟩, true)

/-- `load_df` from src/app.py, continued: `if (not force) and _df_cache is
not None and (now - _df_at) < CACHE_TTL: return _df_cache`, else the fetch
path. -/
def load_df (ttl : Int) (force : Bool) (now : Int) (resp : FetchResp)
    (parse : List Nat → Except LoadErr α) (s : CacheState α) :
    Except LoadErr α × CacheState α × Bool :=
  if h : force = false ∧ s.df_cache.isSome ∧ now - s.df_at < ttl then
    (Except.ok (s.df_cache.get h.2.1), s, false)
  else loadFetch now resp parse s

/-! ### Header detection and record lookup -/

/-- `NAME_H` from src/app.py. -/
def NAME_H : PyStr := pstr "NOMBRES Y APELLIDOS"

/-- `DOC_H` from src/app.py. -/
def DOC_H : PyStr := pstr "DNI / CE"

/-- `VIG_H` from src/app.py. -/
def VIG_H : PyStr := pstr "FECHA DE VIGENCIA DE HABILITACION DE LICENCIA INTERNA"

/-- `EST_H` from src/app.py. -/
def EST_H : PyStr := pstr "ESTATUS DE PROCESO DE HABILITACION"

/-- A spreadsheet cell: `none` is a pandas NA, `some s` the cell text.  (The
application reads every cell through `str(...)`, so text is the general
case.) -/
abbrev Cell := Option PyStr

/-- The parsed spreadsheet: `columns` is the header row `df.columns`
(as text, via `str(c)`), `rows` the data rows. -/
structure Df where
  columns : List PyStr
  rows : List (List Cell)
deriving DecidableEq

/-- `detect_cols` from src/app.py: enumerate the normalized headers into
`cols_norm`, run the matching loop (each `if` overwrites the index on a
match), then substitute the hardcoded fallbacks D=3, E=4, AF=31, AG=32 for
fields still unresolved. -/
def detect_cols (columns : List PyStr) : Nat × Nat × Nat × Nat :=
  let r := ((columns.map norm_header).enum).foldl
    (fun (acc : Option Nat × Option Nat × Option Nat × Option Nat) ih =>
      (if ih.2 = norm_header NAME_H then some ih.1 else acc.1,
       if ih.2 = norm_header DOC_H then some ih.1 else acc.2.1,
       if ih.2 = norm_header VIG_H then some ih.1 else acc.2.2.1,
       if ih.2 = norm_header EST_H then some ih.1 else acc.2.2.2))
    (none, none, none, none)
  (r.1.getD 3, r.2.1.getD 4, r.2.2.1.getD 31, r.2.2.2.getD 32)

/-- `val` from src/app.py: `row.iloc[idx]` with NA mapped to `""`, the value
stripped, and any exception (in particular an out-of-range index) swallowed
into `""`. -/
def val (row : List Cell) (idx : Nat) : PyStr :=
  match row.get? idx with
  | some (some v) => pystrip v
  | some none => []
  | none => []

/-- The identifier key of one data row: the cell the row carries in the
`doc_idx` column, read as text and normalized — the lambda
`normalize_doc("" if pd.isna(x) else str(x))` that `driver` applies to the
column series.  The `| _` arm is the `pd.isna(x)` case (`""` for NA); it is
only ever applied with `docIdx` already checked against the column count
(see `driverLookup`), and every row of a pandas frame carries a cell in
every frame column, so the short-row case is unreachable there. -/
def rowKey (docIdx : Nat) (row : List Cell) : PyStr :=
  normalize_doc (match row.get? docIdx with
    | some (some v) => v
    | _ => [])

/-- The responses `driver` produces (rendering elided): `tokenInvalid` is the
403 "Token inválido" response, `notFound` the 404 "No se encontró al
conductor." response, and `record` the 200 HTML page showing the four
projected fields. -/
inductive DriverResp where
  | tokenInvalid
  | notFound
  | record (nombres dni_ce vig est : PyStr)
deriving DecidableEq

/-- The lookup-and-project tail of `driver` (src/app.py lines 123-157): header
detection, the `matches` filter on the identifier column, the empty check,
and projection of the first match via `val`.  The column access
`df.iloc[:, doc_idx]` (line 125) raises an uncaught pandas `IndexError`
("single positional indexer is out-of-bounds") when `doc_idx` is not below
the number of columns — the filter stands under no `try`, unlike the later
`val` projections — so that case is `Except.error`, not a response. -/
def driverLookup (df : Df) (ndoc : PyStr) : Except LoadErr DriverResp :=
  if (detect_cols df.columns).2.1 < df.columns.length then
    Except.ok
      (match df.rows.filter
          (fun r => rowKey (detect_cols df.columns).2.1 r == ndoc) with
        | [] => DriverResp.notFound
        | row :: _ =>
          DriverResp.record (val row (detect_cols df.columns).1)
            (val row (detect_cols df.columns).2.1)
            (val row (detect_cols df.columns).2.2.1)
            (val row (detect_cols df.columns).2.2.2))
  else Except.error (LoadErr.indexError (detect_cols df.columns).2.1)

/-- `driver` from src/app.py: check the token; on success run `load_df`
(forced when `nocache` is nonzero) and the record lookup.  A `load_df`
exception, like the lookup's possible `IndexError`, propagates out of the
handler unhandled (`Except.error`); the cache state is returned
alongside. -/
def driver (secret : List Nat) (doc t : PyStr) (ttl : Int) (nocache : Nat)
    (now : Int) (resp : FetchResp) (parse : List Nat → Except LoadErr Df)
    (s : CacheState Df) : Except LoadErr DriverResp × CacheState Df :=
  if ¬ t = b64url (hmac_sha256 secret (utf8Encode (normalize_doc doc))) then
    (Except.ok DriverResp.tokenInvalid, s)
  else
    match load_df ttl (nocache ≠ 0 : Bool) now resp parse s with
    | (Except.error e, s1, _) => (Except.error e, s1)
    | (Except.ok df, s1, _) => (driverLookup df (normalize_doc doc), s1)

/-! ### Specification-side definitions used in theorem statements -/

/-- ASCII letter or digit (the characters `normalize_doc` can keep, before
case folding). -/
def isAlnumCp (n : Nat) : Bool :=
  (48 ≤ n && n ≤ 57) || (65 ≤ n && n ≤ 90) || (97 ≤ n && n ≤ 122)

/-- ASCII upper-casing of one code point. -/
def toUpperCp (n : Nat) : Nat := if 97 ≤ n ∧ n ≤ 122 then n - 32 else n

/-- Spec-style description of header resolution (C4): the last column index
whose normalized header equals the normalized target, if any. -/
def lastMatchIdx (target : PyStr) (columns : List PyStr) : Option Nat :=
  ((List.range columns.length).filter
    (fun i => norm_header (columns.getD i []) = norm_header target)).getLast?

/-! ## Validation of the cryptographic embedding

Known test vectors, checked by kernel evaluation: FIPS 180-2 for SHA-256,
RFC 4231 test case 2 for HMAC-SHA256, and the URL-safe base64 of the bytes
0..31 with padding stripped. -/

set_option maxRecDepth 4000 in
theorem sha256_test_vector_abc :
    sha256 (pstr "abc") =
      [186, 120, 22, 191, 143, 1, 207, 234, 65, 65, 64, 222, 93, 174, 34, 35,
       176, 3, 97, 163, 150, 23, 122, 156, 180, 16, 255, 97, 242, 0, 21, 173] := by
  decide

set_option maxRecDepth 8000 in
theorem hmac_test_vector_rfc4231 :
    hmac_sha256 (pstr "Jefe") (utf8Encode (pstr "what do ya want for nothing?")) =
      [91, 220, 193, 70, 191, 96, 117, 78, 106, 4, 36, 38, 8, 149, 117, 199,
       90, 0, 63, 8, 157, 39, 57, 131, 157, 236, 88, 185, 100, 236, 56, 67] := by
  decide

theorem b64url_test_vector :
    b64url (List.range 32) = pstr "AAECAwQFBgcICQoLDA0ODxAREhMUFRYXGBkaGxwdHh8" := by
  decide

/-! ## Helper lemmas -/

theorem dropWhile_eq_self_of_head (p : Nat → Bool) (x : PyStr)
    (h : ∀ c, x.head? = some c → p c = false) : x.dropWhile p = x := by
  cases x with
  | nil => rfl
  | cons c t => rw [List.dropWhile_cons_of_neg]; simp [h c rfl]

theorem pystrip_eq_self (x : PyStr)
    (hh : ∀ c, x.head? = some c → isSpaceCp c = false)
    (hl : ∀ c, x.getLast? = some c → isSpaceCp c = false) : pystrip x = x := by
  unfold pystrip
  rw [dropWhile_eq_self_of_head _ _ hh]
  rw [dropWhile_eq_self_of_head _ _ (by simpa using hl)]
  exact List.reverse_reverse x

theorem pystrip_subset (x : PyStr) : pystrip x ⊆ x := by
  intro c hc
  unfold pystrip at hc
  rw [List.mem_reverse] at hc
  have h1 := List.dropWhile_subset (l := (x.dropWhile isSpaceCp).reverse) isSpaceCp hc
  rw [List.mem_reverse] at h1
  exact List.dropWhile_subset isSpaceCp h1

theorem filter_dropWhile_space (q : Nat → Bool) (l : PyStr)
    (h : ∀ n, isSpaceCp n = true → q n = false) :
    (l.dropWhile isSpaceCp).filter q = l.filter q := by
  conv_rhs => rw [← List.takeWhile_append_dropWhile (p := isSpaceCp) (l := l)]
  rw [List.filter_append]
  have : (l.takeWhile isSpaceCp).filter q = [] := by
    rw [List.filter_eq_nil_iff]
    intro a ha
    simp [h a (List.mem_takeWhile_imp ha)]
  rw [this, List.nil_append]

theorem pystrip_filter (q : Nat → Bool) (x : PyStr)
    (h : ∀ n, isSpaceCp n = true → q n = false) :
    (pystrip x).filter q = x.filter q := by
  unfold pystrip
  rw [List.filter_reverse, filter_dropWhile_space q _ h, List.filter_reverse,
    List.reverse_reverse, filter_dropWhile_space q _ h]

theorem upperCp_ascii (n : Nat) (h : n < 128) : upperCp n = [toUpperCp n] := by
  unfold upperCp toUpperCp
  split_ifs with h1 h2 h3 <;> first
  | rfl
  | (exfalso; simp only [beq_iff_eq] at h2; omega)
  | (exfalso; omega)

theorem isDocCp_toUpperCp (n : Nat) (h : n < 128) :
    isDocCp (toUpperCp n) = isAlnumCp n := by
  rw [Bool.eq_iff_iff]
  unfold isDocCp isAlnumCp toUpperCp
  split_ifs <;> (simp only [Bool.or_eq_true, Bool.and_eq_true, decide_eq_true_eq]; omega)

theorem space_not_alnum (n : Nat) (hs : isSpaceCp n = true) : isAlnumCp n = false := by
  simp only [isSpaceCp, Bool.or_eq_true, beq_iff_eq] at hs
  rw [← Bool.not_eq_true]
  simp only [isAlnumCp, Bool.or_eq_true, Bool.and_eq_true, decide_eq_true_eq]
  omega

theorem map_eq_self (f : Nat → Nat) (l : PyStr) (h : ∀ c ∈ l, f c = c) :
    l.map f = l := by
  induction l with
  | nil => rfl
  | cons c t ih =>
    simp only [List.map_cons]
    rw [h c (List.mem_cons_self c t), ih (fun a ha => h a (List.mem_cons_of_mem c ha))]

theorem pyupper_filter_doc (y : PyStr) (hy : ∀ c ∈ y, c < 128) :
    (pyupper y).filter isDocCp = (y.filter isAlnumCp).map toUpperCp := by
  unfold pyupper
  induction y with
  | nil => rfl
  | cons c t ih =>
    have hc : c < 128 := hy c (List.mem_cons_self c t)
    have ht : ∀ a ∈ t, a < 128 := fun a ha => hy a (List.mem_cons_of_mem c ha)
    simp only [List.flatMap_cons, List.filter_append]
    rw [ih ht, upperCp_ascii c hc]
    simp only [List.filter_cons, List.filter_nil, isDocCp_toUpperCp c hc]
    by_cases hq : isAlnumCp c = true
    · simp [hq]
    · simp [hq]

theorem normalize_doc_ascii (x : PyStr) (h : ∀ c ∈ x, c < 128) :
    normalize_doc x = (x.filter isAlnumCp).map toUpperCp := by
  unfold normalize_doc
  have hsub : ∀ c ∈ pystrip x, c < 128 := fun c hc => h c (pystrip_subset x hc)
  rw [pyupper_filter_doc (pystrip x) hsub,
    pystrip_filter isAlnumCp x space_not_alnum]

theorem mem_normalize_doc (x : PyStr) (c : Nat) (hc : c ∈ normalize_doc x) :
    isDocCp c = true := (List.mem_filter.mp hc).2

/-- C9: `normalize_doc` is idempotent, and identifiers differing only by
letter case, whitespace or punctuation (formally: ASCII strings whose
case-folded alphanumeric subsequences agree) normalize to the same canonical
key. -/
theorem c9_normalize_doc_canonical :
    (∀ x : PyStr, normalize_doc (normalize_doc x) = normalize_doc x) ∧
    (∀ x y : PyStr, (∀ c ∈ x, c < 128) → (∀ c ∈ y, c < 128) →
      (x.filter isAlnumCp).map toUpperCp = (y.filter isAlnumCp).map toUpperCp →
      normalize_doc x = normalize_doc y) := by
  constructor
  · intro x
    have hd : ∀ c ∈ normalize_doc x, isDocCp c = true := mem_normalize_doc x
    have hb : ∀ c ∈ normalize_doc x, c < 128 := by
      intro c hc
      have := hd c hc
      unfold isDocCp at this
      simp only [Bool.or_eq_true, Bool.and_eq_true, decide_eq_true_eq] at this
      omega
    rw [normalize_doc_ascii _ hb]
    have hfilter : (normalize_doc x).filter isAlnumCp = normalize_doc x := by
      rw [List.filter_eq_self]
      intro c hc
      have := hd c hc
      unfold isDocCp at this
      unfold isAlnumCp
      simp only [Bool.or_eq_true, Bool.and_eq_true, decide_eq_true_eq] at this ⊢
      omega
    rw [hfilter]
    refine map_eq_self _ _ ?_
    intro c hc
    have := hd c hc
    unfold isDocCp at this
    unfold toUpperCp
    simp only [Bool.or_eq_true, Bool.and_eq_true, decide_eq_true_eq] at this
    rw [if_neg (by omega)]
  · intro x y hx hy hxy
    rw [normalize_doc_ascii x hx, normalize_doc_ascii y hy, hxy]

/-- C9 witness: two identifiers differing by case, whitespace and
punctuation share one canonical key. -/
theorem c9_normalize_doc_canonical_witness :
    normalize_doc (pstr " ab-12 ") = normalize_doc (pstr "AB.12") :=
  c9_normalize_doc_canonical.2 _ _ (by decide) (by decide) (by decide)

/-! ## C4 and C5: header resolution -/

theorem enumFrom_concat {α : Type} (n : Nat) (l : List α) (x : α) :
    (l ++ [x]).enumFrom n = l.enumFrom n ++ [(n + l.length, x)] := by
  induction l generalizing n with
  | nil => simp
  | cons a t ih =>
    simp only [List.cons_append, List.enumFrom_cons, ih (n + 1), List.length_cons]
    have hn : n + 1 + t.length = n + (t.length + 1) := by omega
    rw [hn]

theorem enum_concat {α : Type} (l : List α) (x : α) :
    (l ++ [x]).enum = l.enum ++ [(l.length, x)] := by
  rw [List.enum_eq_enumFrom, List.enum_eq_enumFrom, enumFrom_concat, Nat.zero_add]

theorem lastMatchIdx_concat (t : PyStr) (l : List PyStr) (x : PyStr) :
    lastMatchIdx t (l ++ [x]) =
      if norm_header x = norm_header t then some l.length else lastMatchIdx t l := by
  unfold lastMatchIdx
  rw [List.length_append, List.length_singleton, List.range_succ, List.filter_append]
  have hcong :
      (List.range l.length).filter
        (fun i => decide (norm_header ((l ++ [x]).getD i []) = norm_header t)) =
      (List.range l.length).filter
        (fun i => decide (norm_header (l.getD i []) = norm_header t)) := by
    apply List.filter_congr
    intro i hi
    rw [List.mem_range] at hi
    rw [List.getD_eq_getElem?_getD, List.getElem?_append_left hi,
      ← List.getD_eq_getElem?_getD]
  rw [hcong]
  have hx : (l ++ [x]).getD l.length [] = x := by
    rw [List.getD_eq_getElem?_getD, List.getElem?_append_right (Nat.le_refl _)]
    simp
  by_cases hm : norm_header x = norm_header t
  · rw [List.filter_cons_of_pos (by rw [hx]; exact decide_eq_true hm),
      List.filter_nil, List.getLast?_concat, if_pos hm]
  · rw [List.filter_cons_of_neg (by rw [hx]; exact (Bool.not_eq_true _).mpr (decide_eq_false hm)),
      List.filter_nil, List.append_nil, if_neg hm]

theorem detect_cols_foldl (columns : List PyStr) :
    ((columns.map norm_header).enum).foldl
      (fun (acc : Option Nat × Option Nat × Option Nat × Option Nat) ih =>
        (if ih.2 = norm_header NAME_H then some ih.1 else acc.1,
         if ih.2 = norm_header DOC_H then some ih.1 else acc.2.1,
         if ih.2 = norm_header VIG_H then some ih.1 else acc.2.2.1,
         if ih.2 = norm_header EST_H then some ih.1 else acc.2.2.2))
      (none, none, none, none) =
    (lastMatchIdx NAME_H columns, lastMatchIdx DOC_H columns,
     lastMatchIdx VIG_H columns, lastMatchIdx EST_H columns) := by
  induction columns using List.reverseRecOn with
  | nil => rfl
  | append_singleton l x ih =>
    rw [List.map_append, List.map_singleton, enum_concat, List.foldl_append, ih]
    simp only [List.length_map, List.foldl_cons, List.foldl_nil]
    rw [lastMatchIdx_concat, lastMatchIdx_concat, lastMatchIdx_concat,
      lastMatchIdx_concat]

theorem detect_cols_eq_lastMatch (columns : List PyStr) :
    detect_cols columns =
      ((lastMatchIdx NAME_H columns).getD 3, (lastMatchIdx DOC_H columns).getD 4,
       (lastMatchIdx VIG_H columns).getD 31, (lastMatchIdx EST_H columns).getD 32) := by
  have h := detect_cols_foldl columns
  show
    ((((columns.map norm_header).enum).foldl
      (fun (acc : Option Nat × Option Nat × Option Nat × Option Nat) ih =>
        (if ih.2 = norm_header NAME_H then some ih.1 else acc.1,
         if ih.2 = norm_header DOC_H then some ih.1 else acc.2.1,
         if ih.2 = norm_header VIG_H then some ih.1 else acc.2.2.1,
         if ih.2 = norm_header EST_H then some ih.1 else acc.2.2.2))
      (none, none, none, none)).1.getD 3,
     (((columns.map norm_header).enum).foldl
      (fun (acc : Option Nat × Option Nat × Option Nat × Option Nat) ih =>
        (if ih.2 = norm_header NAME_H then some ih.1 else acc.1,
         if ih.2 = norm_header DOC_H then some ih.1 else acc.2.1,
         if ih.2 = norm_header VIG_H then some ih.1 else acc.2.2.1,
         if ih.2 = norm_header EST_H then some ih.1 else acc.2.2.2))
      (none, none, none, none)).2.1.getD 4,
     (((columns.map norm_header).enum).foldl
      (fun (acc : Option Nat × Option Nat × Option Nat × Option Nat) ih =>
        (if ih.2 = norm_header NAME_H then some ih.1 else acc.1,
         if ih.2 = norm_header DOC_H then some ih.1 else acc.2.1,
         if ih.2 = norm_header VIG_H then some ih.1 else acc.2.2.1,
         if ih.2 = norm_header EST_H then some ih.1 else acc.2.2.2))
      (none, none, none, none)).2.2.1.getD 31,
     (((columns.map norm_header).enum).foldl
      (fun (acc : Option Nat × Option Nat × Option Nat × Option Nat) ih =>
        (if ih.2 = norm_header NAME_H then some ih.1 else acc.1,
         if ih.2 = norm_header DOC_H then some ih.1 else acc.2.1,
         if ih.2 = norm_header VIG_H then some ih.1 else acc.2.2.1,
         if ih.2 = norm_header EST_H then some ih.1 else acc.2.2.2))
      (none, none, none, none)).2.2.2.getD 32) = _
  rw [h]

/-- C4 counterexample: two columns both carry the header `DNI / CE`; the
resolver returns column 1, not the lower index 0 the claim requires. -/
theorem c4_counterexample :
    norm_header ((([pstr "DNI / CE", pstr "DNI / CE"] : List PyStr)).getD 0 []) =
      norm_header DOC_H ∧
    (detect_cols [pstr "DNI / CE", pstr "DNI / CE"]).2.1 = 1 ∧
    (detect_cols [pstr "DNI / CE", pstr "DNI / CE"]).2.1 ≠ 0 := by
  refine ⟨by decide, by decide, by decide⟩

/-- C4 amended: the resolver maps each of the four logical fields to the
LAST column whose normalized header cell equals the normalized logical
name (the loop overwrites earlier matches), falling back to the hardcoded
positions 3, 4, 31, 32 when no column matches; with duplicate headers the
higher column index wins. -/
theorem c4_header_resolution_last_match (columns : List PyStr) :
    detect_cols columns =
      ((lastMatchIdx NAME_H columns).getD 3, (lastMatchIdx DOC_H columns).getD 4,
       (lastMatchIdx VIG_H columns).getD 31, (lastMatchIdx EST_H columns).getD 32) :=
  detect_cols_eq_lastMatch columns

theorem lastMatchIdx_eq_none (t : PyStr) (columns : List PyStr)
    (h : ∀ c ∈ columns, norm_header c ≠ norm_header t) :
    lastMatchIdx t columns = none := by
  unfold lastMatchIdx
  have hfil :
      (List.range columns.length).filter
        (fun i => decide (norm_header (columns.getD i []) = norm_header t)) = [] := by
    rw [List.filter_eq_nil_iff]
    intro i hi
    rw [List.mem_range] at hi
    have hmem : columns.getD i [] ∈ columns := by
      rw [List.getD_eq_getElem?_getD, List.getElem?_eq_getElem hi]
      exact List.getElem_mem hi
    simp only [decide_eq_true_eq]
    exact h _ hmem
  rw [hfil]
  rfl

/-- C5 counterexample: a two-column document whose header row matches none of
the four logical fields, so every fallback position (3, 4, 31, 32) is out of
range; `detect_cols` nevertheless returns the fallbacks — no SchemaError
exists anywhere in the code — and `val` silently projects the empty string
from the out-of-range identifier column. -/
theorem c5_counterexample :
    detect_cols [pstr "COL A", pstr "COL B"] = (3, 4, 31, 32) ∧
    val [some (pstr "x"), some (pstr "y")] 4 = [] := by
  constructor
  · decide
  · decide

/-- C5 amended: when a logical field's header is absent, `detect_cols`
resolves it to the hardcoded fallback position even when that position is
out of range for the document, raising nothing; projecting an out-of-range
column yields the empty string (the `val` exception handler swallows the
IndexError). -/
theorem c5_fallback_out_of_range_silent (columns : List PyStr) (row : List Cell) :
    ((∀ c ∈ columns, norm_header c ≠ norm_header NAME_H) →
      (detect_cols columns).1 = 3) ∧
    ((∀ c ∈ columns, norm_header c ≠ norm_header DOC_H) →
      (detect_cols columns).2.1 = 4) ∧
    ((∀ c ∈ columns, norm_header c ≠ norm_header VIG_H) →
      (detect_cols columns).2.2.1 = 31) ∧
    ((∀ c ∈ columns, norm_header c ≠ norm_header EST_H) →
      (detect_cols columns).2.2.2 = 32) ∧
    (∀ i, row.length ≤ i → val row i = []) := by
  refine ⟨fun h => ?_, fun h => ?_, fun h => ?_, fun h => ?_, fun i hi => ?_⟩
  · rw [detect_cols_eq_lastMatch, lastMatchIdx_eq_none _ _ h]; rfl
  · rw [detect_cols_eq_lastMatch, lastMatchIdx_eq_none _ _ h]; rfl
  · rw [detect_cols_eq_lastMatch, lastMatchIdx_eq_none _ _ h]; rfl
  · rw [detect_cols_eq_lastMatch, lastMatchIdx_eq_none _ _ h]; rfl
  · unfold val
    rw [List.get?_eq_none.mpr hi]

/-- C5 witness: a one-column sheet with a non-matching header resolves the
identifier field to the out-of-range fallback 4 and projects `""` there. -/
theorem c5_fallback_out_of_range_silent_witness :
    (detect_cols [pstr "COL A"]).2.1 = 4 ∧ val [some (pstr "x")] 4 = [] :=
  ⟨(c5_fallback_out_of_range_silent [pstr "COL A"] [some (pstr "x")]).2.1
      (by decide),
   (c5_fallback_out_of_range_silent [pstr "COL A"] [some (pstr "x")]).2.2.2.2 4
      (by decide)⟩

/-! ## C6, C10, C7: document cache and error propagation -/

theorem loadFetch_spec {α : Type} (now : Int) (resp : FetchResp)
    (parse : List Nat → Except LoadErr α) (s : CacheState α) :
    (loadFetch now resp parse s).2.2 = true ∧
    (∀ d2 : α, (loadFetch now resp parse s).1 = Except.ok d2 →
      (loadFetch now resp parse s).2.1 = ⟨some d2, now⟩) ∧
    (∀ e, (loadFetch now resp parse s).1 = Except.error e →
      (loadFetch now resp parse s).2.1 = s) := by
  unfold loadFetch
  split_ifs with h1 h2
  · refine ⟨rfl, ?_, ?_⟩
    · intro d2 hd2
      exact absurd hd2 (by simp)
    · intro e _
      rfl
  · refine ⟨rfl, ?_, ?_⟩
    · intro d2 hd2
      exact absurd hd2 (by simp)
    · intro e _
      rfl
  · cases hp : parse resp.content with
    | error e =>
      simp only [hp]
      refine ⟨trivial, ?_, ?_⟩
      · intro d2 hd2
        exact absurd hd2 (by simp)
      · intro e2 _
        trivial
    | ok df =>
      simp only [hp]
      refine ⟨trivial, ?_, ?_⟩
      · intro d2 hd2
        rw [Except.ok.inj hd2]
      · intro e2 he2
        exact absurd he2 (by simp)

/-- C6: with a document cached at `T0 = s.df_at`, a non-forced call at `now`
with `now - T0 < TTL` serves the cached document and performs no fetch; a
call with `now - T0 ≥ TTL` or a forced refresh performs a fetch, and if the
fetch pipeline succeeds the cache afterwards holds the fetched document
with timestamp `now`. -/
theorem c6_cache_ttl {α : Type} (ttl now : Int) (resp : FetchResp)
    (parse : List Nat → Except LoadErr α) (s : CacheState α) (d : α)
    (hd : s.df_cache = some d) :
    (now - s.df_at < ttl →
      load_df ttl false now resp parse s = (Except.ok d, s, false)) ∧
    (∀ force : Bool, (force = true ∨ ttl ≤ now - s.df_at) →
      (load_df ttl force now resp parse s).2.2 = true ∧
      ∀ d2 : α, (load_df ttl force now resp parse s).1 = Except.ok d2 →
        (load_df ttl force now resp parse s).2.1 = ⟨some d2, now⟩) := by
  constructor
  · intro hfresh
    unfold load_df
    rw [dif_pos ⟨rfl, by rw [hd]; rfl, hfresh⟩]
    simp only [hd, Option.get_some]
  · intro force hstale
    unfold load_df
    have hcond : ¬ (force = false ∧ s.df_cache.isSome ∧ now - s.df_at < ttl) := by
      rcases hstale with h | h
      · rintro ⟨hf, _, _⟩; rw [h] at hf; cases hf
      · rintro ⟨_, _, hlt⟩; omega
    rw [dif_neg hcond]
    exact ⟨(loadFetch_spec now resp parse s).1, (loadFetch_spec now resp parse s).2.1⟩

/-- C6 witness: with TTL 60 and a document cached at time 0, a request at
time 30 is served from cache with no fetch. -/
theorem c6_cache_ttl_witness :
    load_df 60 false 30 ⟨200, [], [], []⟩ (fun _ => Except.ok 7)
      (⟨some 7, 0⟩ : CacheState Nat) = (Except.ok 7, ⟨some 7, 0⟩, false) :=
  (c6_cache_ttl 60 30 ⟨200, [], [], []⟩ (fun _ => Except.ok 7) ⟨some 7, 0⟩ 7
    rfl).1 (by decide)

/-- C10: whenever `load_df` raises (HTTP error status, non-spreadsheet
payload, or parse failure), the cache — document and timestamp alike — is
exactly as before the call, and the error is what the caller receives. -/
theorem c10_cache_unchanged_on_failure {α : Type} (ttl : Int) (force : Bool)
    (now : Int) (resp : FetchResp) (parse : List Nat → Except LoadErr α)
    (s : CacheState α) (e : LoadErr)
    (he : (load_df ttl force now resp parse s).1 = Except.error e) :
    (load_df ttl force now resp parse s).2.1 = s := by
  unfold load_df at he ⊢
  by_cases hcond : force = false ∧ s.df_cache.isSome ∧ now - s.df_at < ttl
  · rw [dif_pos hcond] at he
    exact absurd he (by simp)
  · rw [dif_neg hcond] at he ⊢
    exact (loadFetch_spec now resp parse s).2.2 e he

/-- C10 witness: an HTTP 500 upstream answer leaves the cached document and
timestamp untouched. -/
theorem c10_cache_unchanged_on_failure_witness :
    (load_df 60 false 100 ⟨500, [], [], []⟩
      (fun _ => Except.ok 7) (⟨some 7, 0⟩ : CacheState Nat)).2.1 = ⟨some 7, 0⟩ :=
  c10_cache_unchanged_on_failure 60 false 100 ⟨500, [], [], []⟩
    (fun _ => Except.ok 7) ⟨some 7, 0⟩ (LoadErr.httpError 500) rfl

theorem driver_token_gate (secret : List Nat) (doc t : PyStr) (ttl : Int)
    (nocache : Nat) (now : Int) (resp : FetchResp)
    (parse : List Nat → Except LoadErr Df) (s : CacheState Df) :
    (t = sign secret doc →
      driver secret doc t ttl nocache now resp parse s =
        match load_df ttl (nocache ≠ 0 : Bool) now resp parse s with
        | (Except.error e, s1, _) => (Except.error e, s1)
        | (Except.ok df, s1, _) =>
          (driverLookup df (normalize_doc doc), s1)) ∧
    (¬ t = sign secret doc →
      driver secret doc t ttl nocache now resp parse s =
        (Except.ok DriverResp.tokenInvalid, s)) := by
  constructor
  · intro h
    unfold driver
    rw [if_neg (show ¬¬(t =
      b64url (hmac_sha256 secret (utf8Encode (normalize_doc doc)))) from
        not_not_intro h)]
  · intro h
    unfold driver
    rw [if_pos (show ¬(t =
      b64url (hmac_sha256 secret (utf8Encode (normalize_doc doc)))) from h)]

/-- C7 counterexample: a correctly signed request meeting an HTTP 500
upstream answer: the handler neither returns a 502 nor a 400 response — it
returns no response at all, propagating the `raise_for_status` exception
(`Except.error`) to the framework. -/
theorem c7_counterexample :
    driver (pstr "k") (pstr "12345678")
        (sign (pstr "k") (pstr "12345678")) 60 0 100 ⟨500, [], [], []⟩
        (fun _ => Except.error (LoadErr.parseError [])) ⟨none, 0⟩ =
      (Except.error (LoadErr.httpError 500), ⟨none, 0⟩) ∧
    ∀ (r : DriverResp) (s1 : CacheState Df),
      driver (pstr "k") (pstr "12345678")
          (sign (pstr "k") (pstr "12345678")) 60 0 100 ⟨500, [], [], []⟩
          (fun _ => Except.error (LoadErr.parseError [])) ⟨none, 0⟩ ≠
        (Except.ok r, s1) := by
  have h1 :
      driver (pstr "k") (pstr "12345678")
          (sign (pstr "k") (pstr "12345678")) 60 0 100 ⟨500, [], [], []⟩
          (fun _ => Except.error (LoadErr.parseError [])) ⟨none, 0⟩ =
        (Except.error (LoadErr.httpError 500), ⟨none, 0⟩) := by
    rw [(driver_token_gate (pstr "k") (pstr "12345678")
      (sign (pstr "k") (pstr "12345678")) 60 0 100 ⟨500, [], [], []⟩
      (fun _ => Except.error (LoadErr.parseError [])) ⟨none, 0⟩).1 rfl]
    rfl
  refine ⟨h1, fun r s1 hcontra => ?_⟩
  rw [h1] at hcontra
  cases hcontra

/-- C7 amended: on a fetch failure (non-success status) or an invalid
document shape (HTML page / non-XLSX payload) the handler produces no
response of its own — no 502, no 400: the underlying exception escapes
`driver` unhandled (`Except.error`), leaving the framework's generic
error path to answer. -/
theorem c7_error_propagation (secret : List Nat) (doc : PyStr) (ttl : Int)
    (nocache : Nat) (now : Int) (resp : FetchResp)
    (parse : List Nat → Except LoadErr Df) (s : CacheState Df)
    (hcache : s.df_cache = none) :
    (400 ≤ resp.status → resp.status < 600 →
      driver secret doc (sign secret doc) ttl nocache now resp parse s =
        (Except.error (LoadErr.httpError resp.status), s)) ∧
    (resp.status < 400 →
      (pstr "html" <:+: pylower resp.contentType ∨
        (¬ resp.content.take 2 = [80, 75] ∧
         ¬ pstr "spreadsheetml" <:+: pylower resp.contentType)) →
      driver secret doc (sign secret doc) ttl nocache now resp parse s =
        (Except.error (LoadErr.notXlsx (pylower resp.contentType)
          ((resp.text.take 200).map fun c => if c = 10 then 32 else c)), s)) := by
  have hcond : ¬ (((nocache ≠ 0 : Bool)) = false ∧
      s.df_cache.isSome ∧ now - s.df_at < ttl) := by
    rw [hcache]
    rintro ⟨-, hsome, -⟩
    simp at hsome
  constructor
  · intro h4 h6
    rw [(driver_token_gate secret doc (sign secret doc) ttl nocache now resp
      parse s).1 rfl]
    unfold load_df
    rw [dif_neg hcond]
    unfold loadFetch
    rw [if_pos ⟨h4, h6⟩]
  · intro hlt hshape
    rw [(driver_token_gate secret doc (sign secret doc) ttl nocache now resp
      parse s).1 rfl]
    unfold load_df
    rw [dif_neg hcond]
    unfold loadFetch
    rw [if_neg (fun hc => absurd hc.1 (by omega)), if_pos hshape]

/-- C7 witness: an HTML error page (status 200, `text/html`) makes the
handler propagate the RuntimeError rather than answer 502/400. -/
theorem c7_error_propagation_witness :
    driver (pstr "k") (pstr "1") (sign (pstr "k") (pstr "1")) 60 0 100
        ⟨200, pstr "TEXT/HTML", [60], pstr "<html>oops"⟩
        (fun _ => Except.ok ⟨[], []⟩) ⟨none, 0⟩ =
      (Except.error (LoadErr.notXlsx (pstr "text/html") (pstr "<html>oops")),
       ⟨none, 0⟩) := by
  have h := (c7_error_propagation (pstr "k") (pstr "1") 60 0 100
    ⟨200, pstr "TEXT/HTML", [60], pstr "<html>oops"⟩
    (fun _ => Except.ok ⟨[], []⟩) ⟨none, 0⟩ rfl).2 (by decide) (by decide)
  exact h.trans rfl

/-! ## C1, C2: token signing and verification -/

theorem driverLookup_ne_tokenInvalid (df : Df) (ndoc : PyStr) :
    driverLookup df ndoc ≠ Except.ok DriverResp.tokenInvalid := by
  unfold driverLookup
  by_cases hlt : (detect_cols df.columns).2.1 < df.columns.length
  · rw [if_pos hlt]
    cases df.rows.filter
        (fun r => rowKey (detect_cols df.columns).2.1 r == ndoc) with
    | nil => intro hcontra; cases Except.ok.inj hcontra
    | cons row rest => intro hcontra; cases Except.ok.inj hcontra
  · rw [if_neg hlt]
    intro hcontra; cases hcontra

/-- C1 counterexample: HMAC keys are not injective — a key and its
zero-padded variant are HMAC-equivalent (both are padded to the same 64-byte
block), so the token signed under `k2 = [97, 0]` verifies under
`k = [97] ≠ k2`, refuting "a token signed under k2 fails verification under
k" for arbitrary distinct keys. -/
theorem c1_counterexample :
    ([97] : List Nat) ≠ [97, 0] ∧
    verify [97] (pstr "12345678") (sign [97, 0] (pstr "12345678")) = true := by
  constructor
  · decide
  · have hkb : hmacKeyBlock [97, 0] = hmacKeyBlock [97] := rfl
    show (sign [97, 0] (pstr "12345678") == sign [97] (pstr "12345678")) = true
    unfold sign hmac_sha256
    rw [hkb]
    exact beq_self_eq_true _

/-- C1 amended: for every identifier `d` and key `k` the token produced by
signing `d` under `k` verifies under `k`; and verification under `k` accepts
a token exactly when it equals `sign(d, k)` — so signing under `k2 ≠ k`
fails precisely when the two signatures differ, which HMAC key-equivalence
(e.g. zero-padding) can defeat. -/
theorem c1_sign_verify (secret k2 : List Nat) (d t : PyStr) :
    verify secret d (sign secret d) = true ∧
    (verify secret d t = true ↔ t = sign secret d) ∧
    (verify secret d (sign k2 d) = false ↔ sign k2 d ≠ sign secret d) := by
  refine ⟨?_, ?_, ?_⟩
  · unfold verify
    exact beq_self_eq_true _
  · unfold verify
    exact beq_iff_eq ..
  · unfold verify
    rw [← Bool.not_eq_true, Ne]
    rw [beq_iff_eq ..]

/-- C2: the `driver` token gate is ordinary string comparison: the 403
token-invalid response is produced exactly when the supplied `t` differs
from the recomputed signature as a string (`t != b64url(mac)`).  No
constant-time comparison (`hmac.compare_digest`) appears anywhere in the
code; the timing behaviour itself is not expressible in this embedding. -/
theorem c2_token_gate_plain_equality (secret : List Nat) (doc t : PyStr)
    (ttl : Int) (nocache : Nat) (now : Int) (resp : FetchResp)
    (parse : List Nat → Except LoadErr Df) (s : CacheState Df) :
    (driver secret doc t ttl nocache now resp parse s).1 =
      Except.ok DriverResp.tokenInvalid ↔ ¬ t = sign secret doc := by
  by_cases h : t = sign secret doc
  · rw [(driver_token_gate secret doc t ttl nocache now resp parse s).1 h]
    constructor
    · intro hl
      rcases hload : load_df ttl (nocache ≠ 0 : Bool) now resp parse s with
        ⟨res, s1, fl⟩
      rw [hload] at hl
      cases res with
      | error e => cases hl
      | ok df =>
        simp only at hl
        exact absurd hl (driverLookup_ne_tokenInvalid df _)
    · intro hcontra
      exact absurd h hcontra
  · rw [(driver_token_gate secret doc t ttl nocache now resp parse s).2 h]
    exact ⟨fun _ => h, fun _ => rfl⟩

theorem head?_filter_eq_find? {α : Type} (p : α → Bool) (l : List α) :
    (l.filter p).head? = l.find? p := by
  induction l with
  | nil => rfl
  | cons a t ih =>
    rw [List.filter_cons, List.find?_cons]
    by_cases hp : p a
    · simp [hp]
    · simp only [Bool.not_eq_true] at hp
      simp [hp, ih]

/-- C3 counterexample: a one-column document whose header matches no logical
field, so `detect_cols` resolves the identifier column to the fallback
position 4, out of range for the single column.  No data row's identifier
column normalizes to the query key (there is no identifier column at all),
so the claim demands a 404 response; the program instead raises the
uncaught pandas `IndexError` of `df.iloc[:, 4]` (app.py line 125) and
returns no response. -/
theorem c3_counterexample :
    driverLookup ⟨[pstr "COL A"], [[some (pstr "111")]]⟩ (pstr "111") =
      Except.error (LoadErr.indexError 4) ∧
    ∀ r : DriverResp,
      driverLookup ⟨[pstr "COL A"], [[some (pstr "111")]]⟩ (pstr "111") ≠
        Except.ok r := by
  have h : driverLookup ⟨[pstr "COL A"], [[some (pstr "111")]]⟩ (pstr "111") =
      Except.error (LoadErr.indexError 4) := rfl
  refine ⟨h, fun r hcontra => ?_⟩
  rw [h] at hcontra
  cases hcontra

/-- C3 amended (counterexample `c3_counterexample`): with `doc_idx` resolved
by `detect_cols`, whenever the resolved identifier column position lies
within the document's column count, the handler's lookup returns 404 when no
data row's identifier column normalizes to the query key, and otherwise
projects the four fields of the first matching row in row order (so with
exactly one match, that row; with two or more, the earliest).  When the
position is out of range — a missing identifier header with the fallback
position 4 beyond a narrow document's columns — the lookup instead raises
the uncaught `IndexError` of `df.iloc[:, doc_idx]`, so the claim's
unconditional "zero matches returns 404" fails there. -/
theorem c3_record_lookup (df : Df) (ndoc : PyStr) :
    ((detect_cols df.columns).2.1 < df.columns.length →
      (df.rows.filter (fun r => rowKey (detect_cols df.columns).2.1 r == ndoc) = [] →
        driverLookup df ndoc = Except.ok DriverResp.notFound) ∧
      (∀ row rest,
        df.rows.filter (fun r => rowKey (detect_cols df.columns).2.1 r == ndoc) =
          row :: rest →
        driverLookup df ndoc =
          Except.ok (DriverResp.record (val row (detect_cols df.columns).1)
            (val row (detect_cols df.columns).2.1)
            (val row (detect_cols df.columns).2.2.1)
            (val row (detect_cols df.columns).2.2.2)) ∧
        df.rows.find? (fun r => rowKey (detect_cols df.columns).2.1 r == ndoc) =
          some row)) ∧
    (¬ (detect_cols df.columns).2.1 < df.columns.length →
      driverLookup df ndoc =
        Except.error (LoadErr.indexError (detect_cols df.columns).2.1)) := by
  constructor
  · intro hlt
    constructor
    · intro hempty
      unfold driverLookup
      rw [if_pos hlt, hempty]
    · intro row rest hfilter
      constructor
      · unfold driverLookup
        rw [if_pos hlt, hfilter]
      · rw [← head?_filter_eq_find?, hfilter]
        rfl
  · intro hge
    unfold driverLookup
    rw [if_neg hge]

/-- C3 witness: a three-row document with an in-range identifier column and
two rows matching `111`; the lookup returns the projection of the earlier
matching row. -/
theorem c3_record_lookup_witness :
    driverLookup
      ⟨[pstr "DNI / CE"],
       [[some (pstr "222")], [some (pstr " 11-1 ")], [some (pstr "111")]]⟩
      (pstr "111") =
    Except.ok (DriverResp.record [] (pstr "11-1") [] []) :=
  (((((c3_record_lookup
      ⟨[pstr "DNI / CE"],
       [[some (pstr "222")], [some (pstr " 11-1 ")], [some (pstr "111")]]⟩
      (pstr "111")).1 (by decide)).2) [some (pstr " 11-1 ")] [[some (pstr "111")]]
      (by decide)).1).trans (congrArg Except.ok (by decide))

/-! ## C8: idempotence of the link normalizer

Helper development about `replaceAll` occurrences.  `x <+:`, `<:+`, `<:+:`
are list prefix, suffix and contiguous-substring. -/

theorem occ_of_pfx {x t : List Nat} (h : x <+: t) : x <:+: t :=
  List.IsPrefix.isInfix h

theorem occ_of_sfx {x t : List Nat} (h : x <:+ t) : x <:+: t :=
  List.IsSuffix.isInfix h

theorem occ_cons_ext {x : List Nat} {c : Nat} {t : List Nat} (h : x <:+: t) :
    x <:+: c :: t :=
  List.infix_cons h

theorem occ_nil_iff {x : List Nat} : x <:+: ([] : List Nat) ↔ x = [] :=
  List.infix_nil

theorem occ_cons_iff {x : List Nat} {c : Nat} {t : List Nat} :
    x <:+: c :: t ↔ x <+: c :: t ∨ x <:+: t :=
  List.infix_cons_iff

theorem pfx_append_self (a b : List Nat) : a <+: a ++ b :=
  List.prefix_append a b

theorem sfx_append_self (a b : List Nat) : b <:+ a ++ b :=
  List.suffix_append a b

theorem pfx_of_le {x y l : List Nat} (h1 : x <+: l) (h2 : y <+: l)
    (h : x.length ≤ y.length) : x <+: y :=
  List.prefix_of_prefix_length_le h1 h2 h

theorem cons_pfx_cons {a b : Nat} {l1 l2 : List Nat} :
    a :: l1 <+: b :: l2 ↔ a = b ∧ l1 <+: l2 :=
  List.cons_prefix_cons

theorem pfx_nil_iff {x : List Nat} : x <+: ([] : List Nat) ↔ x = [] :=
  List.prefix_nil

theorem pfx_eq_take {l1 l2 : List Nat} : l1 <+: l2 ↔ l1 = l2.take l1.length :=
  List.prefix_iff_eq_take

theorem sfx_cons_ext (c : Nat) (l : List Nat) : l <:+ c :: l :=
  List.suffix_cons c l

theorem occ_append_ext_right {q : List Nat} (t a : List Nat) (h : q <:+: t) :
    q <:+: t ++ a :=
  h.trans (occ_of_pfx (pfx_append_self t a))

theorem occ_append_ext_left {q : List Nat} (t a : List Nat) (h : q <:+: a) :
    q <:+: t ++ a :=
  h.trans (occ_of_sfx (sfx_append_self t a))

theorem replaceAll_nil (p r : PyStr) : replaceAll p r [] = [] := by
  unfold replaceAll
  rw [dif_neg]
  rintro ⟨hne, hpfx⟩
  exact hne ( List.prefix_nil.mp hpfx)

theorem replaceAll_pos (p r t : PyStr) (hp : p ≠ []) (hpfx : p <+: t) :
    replaceAll p r t = r ++ replaceAll p r (t.drop p.length) := by
  conv_lhs => rw [replaceAll]
  rw [dif_pos ⟨hp, hpfx⟩]

theorem replaceAll_else (p r : PyStr) (c : Nat) (t2 : PyStr)
    (hnc : ¬ (p ≠ [] ∧ p <+: c :: t2)) :
    replaceAll p r (c :: t2) = c :: replaceAll p r t2 := by
  conv_lhs => rw [replaceAll]
  rw [dif_neg hnc]

theorem replaceAll_neg (p r : PyStr) (c : Nat) (t2 : PyStr)
    (hnp : ¬ p <+: c :: t2) : replaceAll p r (c :: t2) = c :: replaceAll p r t2 :=
  replaceAll_else p r c t2 (fun hc => hnp hc.2)

theorem repl_not_occ (p r : PyStr) :
    ∀ t, ¬ p <:+: t → replaceAll p r t = t := by
  refine replaceAll.induct p r
    (motive := fun t => ¬ p <:+: t → replaceAll p r t = t) ?_ ?_ ?_
  · intro x h ih hno
    exact absurd (occ_of_pfx h.2) hno
  · intro h1 h2 hno
    exact replaceAll_nil p r
  · intro c t2 hcond hcond2 ih hno
    by_cases hp : p = []
    · exact absurd (hp ▸ occ_of_pfx ( List.nil_prefix)) hno
    · rw [replaceAll_neg p r c t2 (fun hpfx => hcond ⟨hp, hpfx⟩)]
      rw [ih (fun hocc => hno (occ_cons_ext hocc))]

theorem repl_ne_nil (p r : PyStr) (hr : r ≠ []) :
    ∀ t, t ≠ [] → replaceAll p r t ≠ [] := by
  refine replaceAll.induct p r
    (motive := fun t => t ≠ [] → replaceAll p r t ≠ []) ?_ ?_ ?_
  · intro x h ih hx
    rw [replaceAll_pos p r x h.1 h.2]
    exact List.append_ne_nil_of_left_ne_nil hr _
  · intro h1 h2 hx
    exact absurd rfl hx
  · intro c t2 hcond hcond2 ih hx
    rw [replaceAll_else p r c t2 hcond]
    exact List.cons_ne_nil c _

theorem repl_kept (p r : PyStr) (hp : p ≠ []) :
    ∀ t, p <:+: t → r <:+: replaceAll p r t := by
  refine replaceAll.induct p r
    (motive := fun t => p <:+: t → r <:+: replaceAll p r t) ?_ ?_ ?_
  · intro x h ih hocc
    rw [replaceAll_pos p r x h.1 h.2]
    exact occ_of_pfx (pfx_append_self r _)
  · intro h1 h2 hocc
    exact absurd (occ_nil_iff.mp hocc) hp
  · intro c t2 hcond hcond2 ih hocc
    have hnp : ¬ p <+: c :: t2 := fun hpfx => hcond ⟨hp, hpfx⟩
    rw [replaceAll_neg p r c t2 hnp]
    rcases occ_cons_iff.mp hocc with hpfx | hrest
    · exact absurd hpfx hnp
    · exact occ_cons_ext (ih hrest)

theorem occ_append_split (x a b : List Nat) (h : x <:+: a ++ b) :
    x <:+: a ∨ x <:+: b ∨
      ∃ k, 0 < k ∧ k < x.length ∧ x.take k <:+ a ∧ x.drop k <+: b := by
  induction a with
  | nil => exact Or.inr (Or.inl (by simpa using h))
  | cons c a2 ih =>
    rw [List.cons_append, occ_cons_iff] at h
    rcases h with hpfx | hrest
    · by_cases hlen : x.length ≤ (c :: a2).length
      · exact Or.inl (occ_of_pfx (pfx_of_le hpfx (pfx_append_self (c :: a2) b) hlen))
      · push_neg at hlen
        have hax : (c :: a2) <+: x :=
          pfx_of_le (pfx_append_self (c :: a2) b) hpfx (Nat.le_of_lt hlen)
        refine Or.inr (Or.inr ⟨(c :: a2).length, by simp, hlen, ?_, ?_⟩)
        · rw [← pfx_eq_take.mp hax]
        · rcases hpfx with ⟨u, hu⟩
          rcases hax with ⟨x2, hx2⟩
          rw [← hx2, List.drop_left]
          rw [← hx2, List.append_assoc] at hu
          exact ⟨u, List.append_cancel_left hu⟩
    · rcases ih hrest with h1 | h2 | ⟨k, hk0, hkx, hta, hdb⟩
      · exact Or.inl (occ_cons_ext h1)
      · exact Or.inr (Or.inl h2)
      · exact Or.inr (Or.inr ⟨k, hk0, hkx, hta.trans (sfx_cons_ext c a2), hdb⟩)

theorem repl_pfx_trace (p r : PyStr) (hp : p ≠ []) :
    ∀ t x, x ≠ [] →
      (∀ k, k < x.length → ¬ ((x.drop k <+: r) ∨ (r <+: x.drop k))) →
      x <+: replaceAll p r t → x <+: t := by
  refine replaceAll.induct p r
    (motive := fun t => ∀ x, x ≠ [] →
      (∀ k, k < x.length → ¬ ((x.drop k <+: r) ∨ (r <+: x.drop k))) →
      x <+: replaceAll p r t → x <+: t) ?_ ?_ ?_
  · intro t h ih x hx hcond hpfx
    rw [replaceAll_pos p r t h.1 h.2] at hpfx
    exfalso
    have hx0 : 0 < x.length := List.length_pos.mpr hx
    by_cases hlen : x.length ≤ r.length
    · have hxr : x <+: r := pfx_of_le hpfx (pfx_append_self r _) hlen
      exact hcond 0 hx0 (Or.inl (by simpa using hxr))
    · push_neg at hlen
      have hrx : r <+: x := pfx_of_le (pfx_append_self r _) hpfx (Nat.le_of_lt hlen)
      exact hcond 0 hx0 (Or.inr (by simpa using hrx))
  · intro h1 h2 x hx hcond hpfx
    rw [replaceAll_nil] at hpfx
    exact absurd (pfx_nil_iff.mp hpfx) hx
  · intro c t2 hcond1 hcond2 ih x hx hcond hpfx
    rw [replaceAll_else p r c t2 hcond1] at hpfx
    cases x with
    | nil => exact absurd rfl hx
    | cons x0 x2 =>
      rcases cons_pfx_cons.mp hpfx with ⟨hx0, hx2⟩
      subst hx0
      by_cases hx2nil : x2 = []
      · subst hx2nil
        exact cons_pfx_cons.mpr ⟨rfl, List.nil_prefix⟩
      · have hshift : ∀ k, k < x2.length →
            ¬ ((x2.drop k <+: r) ∨ (r <+: x2.drop k)) := by
          intro k hk
          have := hcond (k + 1) (by simp; omega)
          simpa using this
        exact cons_pfx_cons.mpr ⟨rfl, ih x2 hx2nil hshift hx2⟩

theorem repl_no_occ (p r : PyStr) (hp : p ≠ [])
    (h1 : ¬ p <:+: r)
    (h2 : ∀ k, k < p.length → 0 < k → ¬ p.take k <:+ r)
    (h3 : ∀ k, k < p.length → 0 < k → ¬ ((p.drop k <+: r) ∨ (r <+: p.drop k))) :
    ∀ t, ¬ p <:+: replaceAll p r t := by
  obtain ⟨p0, p2, rfl⟩ : ∃ p0 p2, p = p0 :: p2 := by
    cases p with
    | nil => exact absurd rfl hp
    | cons p0 p2 => exact ⟨p0, p2, rfl⟩
  refine replaceAll.induct (p0 :: p2) r
    (motive := fun t => ¬ (p0 :: p2) <:+: replaceAll (p0 :: p2) r t) ?_ ?_ ?_
  · intro t h ih hocc
    rw [replaceAll_pos _ r t h.1 h.2] at hocc
    rcases occ_append_split _ r _ hocc with ha | hb | ⟨k, hk0, hkp, hta, _⟩
    · exact h1 ha
    · exact ih hb
    · exact h2 k hkp hk0 hta
  · intro hc1 hc2 hocc
    rw [replaceAll_nil] at hocc
    exact hp (occ_nil_iff.mp hocc)
  · intro c t2 hcond1 hcond2 ih hocc
    have hnp : ¬ (p0 :: p2) <+: c :: t2 := fun hpfx => hcond1 ⟨hp, hpfx⟩
    rw [replaceAll_else _ r c t2 hcond1] at hocc
    rcases occ_cons_iff.mp hocc with hpfx | hrest
    · rcases cons_pfx_cons.mp hpfx with ⟨hc, hp2⟩
      subst hc
      by_cases hp2nil : p2 = []
      · apply hnp
        rw [hp2nil]
        exact cons_pfx_cons.mpr ⟨rfl, List.nil_prefix⟩
      · have hshift : ∀ k, k < p2.length →
            ¬ ((p2.drop k <+: r) ∨ (r <+: p2.drop k)) := by
          intro k hk
          have hd : (p0 :: p2).drop (k + 1) = p2.drop k := rfl
          have := h3 (k + 1) (by simp; omega) (by omega)
          rw [hd] at this
          exact this
        have := repl_pfx_trace (p0 :: p2) r hp t2 p2 hp2nil hshift hp2
        exact hnp (cons_pfx_cons.mpr ⟨rfl, this⟩)
    · exact ih hrest

theorem repl_no_create (p r q : PyStr) (hp : p ≠ []) (hq : q ≠ [])
    (h1 : ¬ q <:+: r)
    (h2 : ∀ k, k < q.length → 0 < k → ¬ q.take k <:+ r)
    (h3 : ∀ k, k < q.length → 0 < k → ¬ ((q.drop k <+: r) ∨ (r <+: q.drop k))) :
    ∀ t, ¬ q <:+: t → ¬ q <:+: replaceAll p r t := by
  obtain ⟨q0, q2, rfl⟩ : ∃ q0 q2, q = q0 :: q2 := by
    cases q with
    | nil => exact absurd rfl hq
    | cons q0 q2 => exact ⟨q0, q2, rfl⟩
  refine replaceAll.induct p r
    (motive := fun t => ¬ (q0 :: q2) <:+: t → ¬ (q0 :: q2) <:+: replaceAll p r t)
    ?_ ?_ ?_
  · intro t h ih hqt hocc
    rw [replaceAll_pos p r t h.1 h.2] at hocc
    rcases occ_append_split _ r _ hocc with ha | hb | ⟨k, hk0, hkq, hta, _⟩
    · exact h1 ha
    · refine ih ?_ hb
      intro hocc3
      exact hqt (hocc3.trans (occ_of_sfx ( List.drop_suffix _ _)))
    · exact h2 k hkq hk0 hta
  · intro hc1 hc2 hqt hocc
    rw [replaceAll_nil] at hocc
    exact hq (occ_nil_iff.mp hocc)
  · intro c t2 hcond1 hcond2 ih hqt hocc
    rw [replaceAll_else p r c t2 hcond1] at hocc
    rcases occ_cons_iff.mp hocc with hpfx | hrest
    · rcases cons_pfx_cons.mp hpfx with ⟨hc, hq2⟩
      subst hc
      by_cases hq2nil : q2 = []
      · apply hqt
        rw [hq2nil]
        exact occ_of_pfx (cons_pfx_cons.mpr ⟨rfl, List.nil_prefix⟩)
      · have hshift : ∀ k, k < q2.length →
            ¬ ((q2.drop k <+: r) ∨ (r <+: q2.drop k)) := by
          intro k hk
          have hd : (q0 :: q2).drop (k + 1) = q2.drop k := rfl
          have := h3 (k + 1) (by simp; omega) (by omega)
          rw [hd] at this
          exact this
        have htr := repl_pfx_trace p r hp t2 q2 hq2nil hshift hq2
        exact hqt (occ_of_pfx (cons_pfx_cons.mpr ⟨rfl, htr⟩))
    · exact ih (fun h => hqt (occ_cons_ext h)) hrest

theorem repl_pfx_pres (p r : PyStr) (hp : p ≠ []) :
    ∀ x s, (∀ j, j < x.length → ¬ ((p <+: x.drop j) ∨ (x.drop j <+: p))) →
      x <+: s → x <+: replaceAll p r s := by
  intro x
  induction x with
  | nil =>
    intro s _ _
    exact List.nil_prefix
  | cons d x2 ih =>
    intro s hcond hpfx
    cases s with
    | nil => exact absurd hpfx (by simp)
    | cons s0 s2 =>
      rcases cons_pfx_cons.mp hpfx with ⟨hd, hx2⟩
      subst hd
      have hnp : ¬ p <+: d :: s2 := by
        intro hps
        have h0 := hcond 0 (by simp)
        simp only [List.drop_zero] at h0
        by_cases hlen : p.length ≤ (d :: x2).length
        · exact h0 (Or.inl (pfx_of_le hps hpfx hlen))
        · push_neg at hlen
          exact h0 (Or.inr (pfx_of_le hpfx hps (Nat.le_of_lt hlen)))
      rw [replaceAll_neg p r d s2 hnp]
      refine cons_pfx_cons.mpr ⟨rfl, ih s2 ?_ hx2⟩
      intro j hj
      have := hcond (j + 1) (by simp; omega)
      simpa using this

theorem repl_occ_pres (p r q : PyStr) (hp : p ≠ []) (hq : q ≠ [])
    (hL : ¬ q <:+: p)
    (hT : ∀ k, k ≤ q.length → 0 < k → ¬ q.take k <:+ p)
    (hC : ∀ j, j < q.length → ¬ ((p <+: q.drop j) ∨ (q.drop j <+: p))) :
    ∀ t, q <:+: t → q <:+: replaceAll p r t := by
  refine replaceAll.induct p r
    (motive := fun t => q <:+: t → q <:+: replaceAll p r t) ?_ ?_ ?_
  · intro t h ih hqt
    have ht : p ++ t.drop p.length = t := List.prefix_iff_eq_append.mp h.2
    rw [replaceAll_pos p r t h.1 h.2]
    rw [← ht] at hqt
    rcases occ_append_split _ p _ hqt with ha | hb | ⟨k, hk0, hkq, hta, _⟩
    · exact absurd ha hL
    · exact occ_append_ext_left r _ (ih hb)
    · exact absurd hta (hT k (Nat.le_of_lt hkq) hk0)
  · intro hc1 hc2 hqt
    rw [replaceAll_nil]
    exact hqt
  · intro c t2 hcond1 hcond2 ih hqt
    rw [replaceAll_else p r c t2 hcond1]
    rcases occ_cons_iff.mp hqt with hpfx | hrest
    · obtain ⟨q0, q2, hqe⟩ : ∃ q0 q2, q = q0 :: q2 := by
        cases q with
        | nil => exact absurd rfl hq
        | cons q0 q2 => exact ⟨q0, q2, rfl⟩
      have hnp : ¬ p <+: c :: t2 := by
        intro hps
        have h0 := hC 0 (by rw [hqe]; simp)
        simp only [List.drop_zero] at h0
        by_cases hlen : p.length ≤ q.length
        · exact h0 (Or.inl (pfx_of_le hps hpfx hlen))
        · push_neg at hlen
          exact h0 (Or.inr (pfx_of_le hpfx hps (Nat.le_of_lt hlen)))
      subst hqe
      rcases cons_pfx_cons.mp hpfx with ⟨hc, hq2⟩
      subst hc
      have hq2r : q2 <+: replaceAll p r t2 := by
        refine repl_pfx_pres p r hp q2 t2 ?_ hq2
        intro j hj
        have := hC (j + 1) (by simp; omega)
        simpa using this
      exact occ_of_pfx (cons_pfx_cons.mpr ⟨rfl, hq2r⟩)
    · exact occ_cons_ext (ih hrest)

theorem repl_append_skip (p0 : Nat) (ptail r : PyStr) :
    ∀ a b : PyStr, p0 ∉ a →
      replaceAll (p0 :: ptail) r (a ++ b) = a ++ replaceAll (p0 :: ptail) r b := by
  intro a
  induction a with
  | nil =>
    intro b _
    rfl
  | cons c a2 ih =>
    intro b hnotin
    have hne : p0 ≠ c := fun he => hnotin (he ▸ List.mem_cons_self c a2)
    rw [List.cons_append, replaceAll_neg _ r c (a2 ++ b)
      (fun hpfx => hne (cons_pfx_cons.mp hpfx).1)]
    rw [ih b (fun hm => hnotin (List.mem_cons_of_mem c hm))]
    rfl

theorem repl_getLast (p r : PyStr) (hr : r ≠ []) :
    ∀ t, t ≠ [] → ((replaceAll p r t).getLast? = t.getLast? ∨
      (replaceAll p r t).getLast? = r.getLast?) := by
  refine replaceAll.induct p r
    (motive := fun t => t ≠ [] → ((replaceAll p r t).getLast? = t.getLast? ∨
      (replaceAll p r t).getLast? = r.getLast?)) ?_ ?_ ?_
  · intro t h ih ht
    have hdec : p ++ t.drop p.length = t := List.prefix_iff_eq_append.mp h.2
    rw [replaceAll_pos p r t h.1 h.2]
    by_cases ht3 : t.drop p.length = []
    · rw [ht3, replaceAll_nil, List.append_nil]
      exact Or.inr rfl
    · have hrne : replaceAll p r (t.drop p.length) ≠ [] := repl_ne_nil p r hr _ ht3
      rw [List.getLast?_append_of_ne_nil _ hrne]
      rcases ih ht3 with hl | hr2
      · left
        rw [hl]
        conv_rhs => rw [← hdec]
        rw [List.getLast?_append_of_ne_nil _ ht3]
      · exact Or.inr hr2
  · intro hc1 hc2 ht
    exact absurd rfl ht
  · intro c t2 hcond1 hcond2 ih ht
    rw [replaceAll_else p r c t2 hcond1]
    by_cases ht2 : t2 = []
    · subst ht2
      rw [replaceAll_nil]
      exact Or.inl rfl
    · have hrne : replaceAll p r t2 ≠ [] := repl_ne_nil p r hr _ ht2
      rw [show c :: replaceAll p r t2 = [c] ++ replaceAll p r t2 from rfl,
        List.getLast?_append_of_ne_nil _ hrne,
        show c :: t2 = [c] ++ t2 from rfl,
        List.getLast?_append_of_ne_nil _ ht2]
      exact ih ht2

theorem no_occ_append (q t a : List Nat) (hqt : ¬ q <:+: t) (hqa : ¬ q <:+: a)
    (hdrop : ∀ k, k < q.length → 0 < k → ¬ q.drop k <+: a) :
    ¬ q <:+: t ++ a := by
  intro h
  rcases occ_append_split q t a h with h1 | h2 | ⟨k, hk0, hkq, _, hdb⟩
  · exact hqt h1
  · exact hqa h2
  · exact hdrop k hkq hk0 hdb

theorem dropWhile_head_false (p : Nat → Bool) (x : PyStr) (c : Nat) (rest : PyStr)
    (h : x.dropWhile p = c :: rest) : p c = false := by
  induction x with
  | nil => cases h
  | cons a t ih =>
    rw [List.dropWhile_cons] at h
    by_cases hpa : p a = true
    · rw [if_pos hpa] at h
      exact ih h
    · rw [if_neg hpa] at h
      cases h
      simpa using hpa

theorem pystrip_head_not_space (x : PyStr) :
    ∀ c, (pystrip x).head? = some c → isSpaceCp c = false := by
  intro c hc
  have hpfx : pystrip x <+: x.dropWhile isSpaceCp := by
    unfold pystrip
    conv_rhs => rw [← List.reverse_reverse (x.dropWhile isSpaceCp)]
    rw [ List.reverse_prefix]
    exact List.dropWhile_suffix _
  obtain ⟨rest, hrest⟩ : ∃ rest, pystrip x = c :: rest := by
    cases hps : pystrip x with
    | nil => rw [hps] at hc; cases hc
    | cons a l =>
      rw [hps] at hc
      cases hc
      exact ⟨l, rfl⟩
  rw [hrest] at hpfx
  cases hw : x.dropWhile isSpaceCp with
  | nil =>
    rw [hw] at hpfx
    exact absurd (pfx_nil_iff.mp hpfx) (List.cons_ne_nil _ _)
  | cons w0 wrest =>
    rw [hw] at hpfx
    rcases cons_pfx_cons.mp hpfx with ⟨hcw, _⟩
    subst hcw
    exact dropWhile_head_false isSpaceCp x c wrest hw

theorem pystrip_last_not_space (x : PyStr) :
    ∀ c, (pystrip x).getLast? = some c → isSpaceCp c = false := by
  intro c hc
  unfold pystrip at hc
  rw [ List.getLast?_reverse] at hc
  obtain ⟨rest, hrest⟩ : ∃ rest,
      ((x.dropWhile isSpaceCp).reverse).dropWhile isSpaceCp = c :: rest := by
    cases hps : ((x.dropWhile isSpaceCp).reverse).dropWhile isSpaceCp with
    | nil => rw [hps] at hc; cases hc
    | cons a l =>
      rw [hps] at hc
      cases hc
      exact ⟨l, rfl⟩
  exact dropWhile_head_false isSpaceCp _ c rest hrest

theorem pylower_append (a x : PyStr) : pylower (a ++ x) = pylower a ++ pylower x := by
  unfold pylower
  rw [List.map_append]

theorem scheme_chars (a : PyStr)
    (hsch : pylower a = pstr "http://" ∨ pylower a = pstr "https://") :
    ∀ c ∈ a, c ≠ 63 ∧ c ≠ 114 ∧ c ≠ 118 ∧ isSpaceCp c = false := by
  intro c hc
  have hmem : toLowerCp c ∈ pylower a := List.mem_map_of_mem _ hc
  have hlow : toLowerCp c = 104 ∨ toLowerCp c = 116 ∨ toLowerCp c = 112 ∨
      toLowerCp c = 115 ∨ toLowerCp c = 58 ∨ toLowerCp c = 47 := by
    rcases hsch with h | h <;> rw [h] at hmem
    · rw [show pstr "http://" = [104, 116, 116, 112, 58, 47, 47] from rfl] at hmem
      simp only [List.mem_cons, List.not_mem_nil, or_false] at hmem
      tauto
    · rw [show pstr "https://" = [104, 116, 116, 112, 115, 58, 47, 47] from rfl] at hmem
      simp only [List.mem_cons, List.not_mem_nil, or_false] at hmem
      tauto
  unfold toLowerCp at hlow
  have hspace : ∀ n, ¬ (n = 32 ∨ n = 9 ∨ n = 10 ∨ n = 11 ∨ n = 12 ∨ n = 13) →
      isSpaceCp n = false := by
    intro n hn
    rw [← Bool.not_eq_true]
    unfold isSpaceCp
    simp only [Bool.or_eq_true, beq_iff_eq]
    tauto
  by_cases hc65 : 65 ≤ c ∧ c ≤ 90
  · rw [if_pos hc65] at hlow
    exact ⟨by omega, by omega, by omega, hspace c (by omega)⟩
  · rw [if_neg hc65] at hlow
    exact ⟨by omega, by omega, by omega, hspace c (by omega)⟩

theorem hasScheme_decomp (u : PyStr) (h : hasScheme u = true) :
    ∃ a b, u = a ++ b ∧ (pylower a = pstr "http://" ∨ pylower a = pstr "https://") := by
  unfold hasScheme at h
  rw [Bool.or_eq_true] at h
  rcases h with h | h
  · have hpfx : pstr "http://" <+: pylower u := List.isPrefixOf_iff_prefix.mp h
    refine ⟨u.take 7, u.drop 7, (List.take_append_drop 7 u).symm, Or.inl ?_⟩
    unfold pylower
    rw [List.map_take]
    rw [show (7 : Nat) = (pstr "http://").length from rfl]
    exact (pfx_eq_take.mp hpfx).symm
  · have hpfx : pstr "https://" <+: pylower u := List.isPrefixOf_iff_prefix.mp h
    refine ⟨u.take 8, u.drop 8, (List.take_append_drop 8 u).symm, Or.inr ?_⟩
    unfold pylower
    rw [List.map_take]
    rw [show (8 : Nat) = (pstr "https://").length from rfl]
    exact (pfx_eq_take.mp hpfx).symm

theorem addScheme_decomp (u : PyStr) :
    ∃ a b, addScheme u = a ++ b ∧
      (pylower a = pstr "http://" ∨ pylower a = pstr "https://") := by
  unfold addScheme
  by_cases h : hasScheme u = true
  · rw [if_pos h]
    exact hasScheme_decomp u h
  · rw [if_neg h]
    exact ⟨pstr "https://", u, rfl, Or.inr rfl⟩

theorem hasScheme_append (a x : PyStr)
    (hsch : pylower a = pstr "http://" ∨ pylower a = pstr "https://") :
    hasScheme (a ++ x) = true := by
  unfold hasScheme
  rw [Bool.or_eq_true, pylower_append]
  rcases hsch with h | h
  · left
    rw [ List.isPrefixOf_iff_prefix, h]
    exact pfx_append_self _ _
  · right
    rw [ List.isPrefixOf_iff_prefix, h]
    exact pfx_append_self _ _

theorem addScheme_of_hasScheme (u : PyStr) (h : hasScheme u = true) :
    addScheme u = u := by
  unfold addScheme
  rw [if_pos h]

theorem scheme_ne_nil (a : PyStr)
    (hsch : pylower a = pstr "http://" ∨ pylower a = pstr "https://") : a ≠ [] := by
  intro he
  subst he
  rcases hsch with h | h <;> exact absurd h (by decide)

theorem strip_fix (w a b : PyStr) (hw : w = a ++ b)
    (hsch : pylower a = pstr "http://" ∨ pylower a = pstr "https://")
    (hlast : ∀ c, w.getLast? = some c → isSpaceCp c = false) :
    pystrip w = w := by
  refine pystrip_eq_self w ?_ hlast
  intro c hc
  obtain ⟨a0, arest, hae⟩ : ∃ a0 arest, a = a0 :: arest := by
    cases a with
    | nil => exact absurd rfl (scheme_ne_nil _ hsch)
    | cons a0 arest => exact ⟨a0, arest, rfl⟩
  subst hae
  rw [hw, List.cons_append] at hc
  have hc2 : a0 = c := by simpa using hc
  subst hc2
  exact (scheme_chars _ hsch a0 (List.mem_cons_self _ _)).2.2.2

theorem second_pass (w a b : PyStr) (hw : w = a ++ b)
    (hsch : pylower a = pstr "http://" ∨ pylower a = pstr "https://")
    (hlast : ∀ c, w.getLast? = some c → isSpaceCp c = false)
    (hbody : od_body w = w) : od_to_download w = w := by
  unfold od_to_download
  rw [strip_fix w a b hw hsch hlast]
  rw [hw, addScheme_of_hasScheme _ (hasScheme_append a b hsch), ← hw, hbody]

theorem od_body_sp (w : PyStr) (hsp : pstr "sharepoint.com" <:+: w)
    (hweb : ¬ pstr "?web=1" <:+: w) (hdl : pstr "download=1" <:+: w) :
    od_body w = w := by
  unfold od_body
  rw [if_pos hsp, if_neg hweb, if_neg (not_not_intro hdl)]

theorem od_body_od (w : PyStr) (hsp : ¬ pstr "sharepoint.com" <:+: w)
    (hod : pstr "onedrive.live.com" <:+: w)
    (hred : ¬ pstr "redir" <:+: w) (hview : ¬ pstr "view.aspx" <:+: w)
    (hdl : pstr "download=1" <:+: w) :
    od_body w = w := by
  unfold od_body
  rw [if_neg hsp, if_pos hod,
    repl_not_occ (pstr "redir") (pstr "download") w hred,
    repl_not_occ (pstr "view.aspx") (pstr "download.aspx") w hview,
    if_neg (not_not_intro hdl)]

theorem od_body_plain (w : PyStr) (hsp : ¬ pstr "sharepoint.com" <:+: w)
    (hod : ¬ pstr "onedrive.live.com" <:+: w) : od_body w = w := by
  unfold od_body
  rw [if_neg hsp, if_neg hod]

theorem appendDownload_cases (u : PyStr) :
    appendDownload u = u ++ pstr "&download=1" ∨
    appendDownload u = u ++ pstr "?download=1" := by
  unfold appendDownload
  by_cases h : (63 : Nat) ∈ u
  · left
    rw [if_pos h, List.append_assoc]
    rfl
  · right
    rw [if_neg h, List.append_assoc]
    rfl

theorem append_last_49 (u app : PyStr)
    (happ : app = pstr "&download=1" ∨ app = pstr "?download=1") :
    ∀ c, (u ++ app).getLast? = some c → isSpaceCp c = false := by
  intro c hc
  have hne : app ≠ [] := by rcases happ with h | h <;> subst h <;> decide
  rw [List.getLast?_append_of_ne_nil _ hne] at hc
  rcases happ with h | h <;> subst h
  · rw [show (pstr "&download=1").getLast? = some 49 from rfl] at hc
    cases hc
    rfl
  · rw [show (pstr "?download=1").getLast? = some 49 from rfl] at hc
    cases hc
    rfl

theorem no_occ_append_dl (q u app : PyStr) (hq : ¬ q <:+: u)
    (happ : app = pstr "&download=1" ∨ app = pstr "?download=1")
    (h1 : ¬ q <:+: pstr "&download=1") (h2 : ¬ q <:+: pstr "?download=1")
    (h3 : ∀ k, k < q.length → 0 < k → ¬ q.drop k <+: pstr "&download=1")
    (h4 : ∀ k, k < q.length → 0 < k → ¬ q.drop k <+: pstr "?download=1") :
    ¬ q <:+: u ++ app := by
  rcases happ with h | h <;> subst h
  · exact no_occ_append q u _ hq h1 h3
  · exact no_occ_append q u _ hq h2 h4

theorem dl_append (u app : PyStr)
    (happ : app = pstr "&download=1" ∨ app = pstr "?download=1") :
    pstr "download=1" <:+: u ++ app := by
  rcases happ with h | h <;> subst h
  · exact occ_append_ext_left u _ (by decide)
  · exact occ_append_ext_left u _ (by decide)

theorem addScheme_last_not_space (x : PyStr) :
    ∀ c, (addScheme (pystrip x)).getLast? = some c → isSpaceCp c = false := by
  intro c hc
  unfold addScheme at hc
  by_cases h : hasScheme (pystrip x) = true
  · rw [if_pos h] at hc
    exact pystrip_last_not_space x c hc
  · rw [if_neg h] at hc
    by_cases hnil : pystrip x = []
    · rw [hnil, List.append_nil] at hc
      rw [show (pstr "https://").getLast? = some 47 from rfl] at hc
      cases hc
      rfl
    · rw [List.getLast?_append_of_ne_nil _ hnil] at hc
      exact pystrip_last_not_space x c hc

/-- C8: the link normalizer is idempotent — for every input URL string
(SharePoint, consumer-OneDrive, or unrelated), applying `od_to_download`
twice yields the same URL as applying it once. -/
theorem c8_od_to_download_idempotent (url : PyStr) :
    od_to_download (od_to_download url) = od_to_download url := by
  obtain ⟨a, b, hab, hsch⟩ := addScheme_decomp (pystrip url)
  have hlast0 := addScheme_last_not_space url
  generalize hU : addScheme (pystrip url) = u at hab hlast0
  have hune : u ≠ [] := by
    rw [hab]
    exact List.append_ne_nil_of_left_ne_nil (scheme_ne_nil a hsch) b
  have hfirst : od_to_download url = od_body u := by
    unfold od_to_download
    rw [hU]
  rw [hfirst]
  by_cases hsp : pstr "sharepoint.com" <:+: u
  · by_cases hweb : pstr "?web=1" <:+: u
    · have hbody : od_body u = replaceAll (pstr "?web=1") (pstr "?download=1") u := by
        unfold od_body
        rw [if_pos hsp, if_pos hweb]
      rw [hbody]
      have hsp2 : pstr "sharepoint.com" <:+:
          replaceAll (pstr "?web=1") (pstr "?download=1") u :=
        repl_occ_pres _ _ _ (by decide) (by decide) (by decide) (by decide)
          (by decide) u hsp
      have hweb2 : ¬ pstr "?web=1" <:+:
          replaceAll (pstr "?web=1") (pstr "?download=1") u :=
        repl_no_occ _ _ (by decide) (by decide) (by decide) (by decide) u
      have hdl2 : pstr "download=1" <:+:
          replaceAll (pstr "?web=1") (pstr "?download=1") u :=
        List.IsInfix.trans (by decide) (repl_kept _ _ (by decide) u hweb)
      have hlast2 : ∀ c,
          (replaceAll (pstr "?web=1") (pstr "?download=1") u).getLast? = some c →
          isSpaceCp c = false := by
        intro c hc
        rcases repl_getLast (pstr "?web=1") (pstr "?download=1") (by decide) u hune
          with h | h
        · rw [h] at hc
          exact hlast0 c hc
        · rw [h] at hc
          rw [show (pstr "?download=1").getLast? = some 49 from rfl] at hc
          cases hc
          rfl
      have hdec2 : replaceAll (pstr "?web=1") (pstr "?download=1") u =
          a ++ replaceAll (pstr "?web=1") (pstr "?download=1") b := by
        rw [hab]
        exact repl_append_skip 63 (pstr "web=1") (pstr "?download=1") a b
          (fun hm => (scheme_chars a hsch 63 hm).1 rfl)
      exact second_pass _ a _ hdec2 hsch hlast2 (od_body_sp _ hsp2 hweb2 hdl2)
    · by_cases hdl : pstr "download=1" <:+: u
      · have hbody : od_body u = u := od_body_sp u hsp hweb hdl
        rw [hbody]
        exact second_pass u a b hab hsch hlast0 hbody
      · have hbody : od_body u = appendDownload u := by
          unfold od_body
          rw [if_pos hsp, if_neg hweb, if_pos hdl]
        rw [hbody]
        rcases appendDownload_cases u with h | h <;> rw [h]
        · refine second_pass _ a (b ++ pstr "&download=1") ?_ hsch
            (append_last_49 u _ (Or.inl rfl)) ?_
          · rw [hab, List.append_assoc]
          · refine od_body_sp _ (occ_append_ext_right u _ hsp) ?_
              (dl_append u _ (Or.inl rfl))
            exact no_occ_append_dl _ u _ hweb (Or.inl rfl) (by decide) (by decide)
              (by decide) (by decide)
        · refine second_pass _ a (b ++ pstr "?download=1") ?_ hsch
            (append_last_49 u _ (Or.inr rfl)) ?_
          · rw [hab, List.append_assoc]
          · refine od_body_sp _ (occ_append_ext_right u _ hsp) ?_
              (dl_append u _ (Or.inr rfl))
            exact no_occ_append_dl _ u _ hweb (Or.inr rfl) (by decide) (by decide)
              (by decide) (by decide)
  · by_cases hod : pstr "onedrive.live.com" <:+: u
    · have hsp1 : ¬ pstr "sharepoint.com" <:+:
          replaceAll (pstr "redir") (pstr "download") u :=
        repl_no_create _ _ _ (by decide) (by decide) (by decide) (by decide)
          (by decide) u hsp
      have hsp2 : ¬ pstr "sharepoint.com" <:+:
          replaceAll (pstr "view.aspx") (pstr "download.aspx")
            (replaceAll (pstr "redir") (pstr "download") u) :=
        repl_no_create _ _ _ (by decide) (by decide) (by decide) (by decide)
          (by decide) _ hsp1
      have hod1 : pstr "onedrive.live.com" <:+:
          replaceAll (pstr "redir") (pstr "download") u :=
        repl_occ_pres _ _ _ (by decide) (by decide) (by decide) (by decide)
          (by decide) u hod
      have hod2 : pstr "onedrive.live.com" <:+:
          replaceAll (pstr "view.aspx") (pstr "download.aspx")
            (replaceAll (pstr "redir") (pstr "download") u) :=
        repl_occ_pres _ _ _ (by decide) (by decide) (by decide) (by decide)
          (by decide) _ hod1
      have hred1 : ¬ pstr "redir" <:+:
          replaceAll (pstr "redir") (pstr "download") u :=
        repl_no_occ _ _ (by decide) (by decide) (by decide) (by decide) u
      have hred2 : ¬ pstr "redir" <:+:
          replaceAll (pstr "view.aspx") (pstr "download.aspx")
            (replaceAll (pstr "redir") (pstr "download") u) :=
        repl_no_create _ _ _ (by decide) (by decide) (by decide) (by decide)
          (by decide) _ hred1
      have hview2 : ¬ pstr "view.aspx" <:+:
          replaceAll (pstr "view.aspx") (pstr "download.aspx")
            (replaceAll (pstr "redir") (pstr "download") u) :=
        repl_no_occ _ _ (by decide) (by decide) (by decide) (by decide) _
      have hne1 : replaceAll (pstr "redir") (pstr "download") u ≠ [] :=
        repl_ne_nil _ _ (by decide) u hune
      have hlast2 : ∀ c,
          (replaceAll (pstr "view.aspx") (pstr "download.aspx")
            (replaceAll (pstr "redir") (pstr "download") u)).getLast? = some c →
          isSpaceCp c = false := by
        intro c hc
        rcases repl_getLast (pstr "view.aspx") (pstr "download.aspx")
            (by decide) _ hne1 with h | h
        · rw [h] at hc
          rcases repl_getLast (pstr "redir") (pstr "download")
              (by decide) u hune with h2 | h2
          · rw [h2] at hc
            exact hlast0 c hc
          · rw [h2] at hc
            rw [show (pstr "download").getLast? = some 100 from rfl] at hc
            cases hc
            rfl
        · rw [h] at hc
          rw [show (pstr "download.aspx").getLast? = some 120 from rfl] at hc
          cases hc
          rfl
      have hdec2 : replaceAll (pstr "view.aspx") (pstr "download.aspx")
            (replaceAll (pstr "redir") (pstr "download") u) =
          a ++ replaceAll (pstr "view.aspx") (pstr "download.aspx")
            (replaceAll (pstr "redir") (pstr "download") b) := by
        rw [hab]
        rw [show replaceAll (pstr "redir") (pstr "download") (a ++ b) =
            a ++ replaceAll (pstr "redir") (pstr "download") b from
          repl_append_skip 114 (pstr "edir") (pstr "download") a b
            (fun hm => (scheme_chars a hsch 114 hm).2.1 rfl)]
        exact repl_append_skip 118 (pstr "iew.aspx") (pstr "download.aspx") a _
          (fun hm => (scheme_chars a hsch 118 hm).2.2.1 rfl)
      by_cases hdlv : pstr "download=1" <:+:
          replaceAll (pstr "view.aspx") (pstr "download.aspx")
            (replaceAll (pstr "redir") (pstr "download") u)
      · have hbody : od_body u = replaceAll (pstr "view.aspx") (pstr "download.aspx")
            (replaceAll (pstr "redir") (pstr "download") u) := by
          unfold od_body
          rw [if_neg hsp, if_pos hod, if_neg (not_not_intro hdlv)]
        rw [hbody]
        exact second_pass _ a _ hdec2 hsch hlast2
          (od_body_od _ hsp2 hod2 hred2 hview2 hdlv)
      · have hbody : od_body u = appendDownload
            (replaceAll (pstr "view.aspx") (pstr "download.aspx")
              (replaceAll (pstr "redir") (pstr "download") u)) := by
          unfold od_body
          rw [if_neg hsp, if_pos hod, if_pos hdlv]
        rw [hbody]
        rcases appendDownload_cases (replaceAll (pstr "view.aspx") (pstr "download.aspx")
          (replaceAll (pstr "redir") (pstr "download") u)) with h | h <;> rw [h]
        · refine second_pass _ a
            (replaceAll (pstr "view.aspx") (pstr "download.aspx")
              (replaceAll (pstr "redir") (pstr "download") b) ++ pstr "&download=1")
            ?_ hsch (append_last_49 _ _ (Or.inl rfl)) ?_
          · rw [hdec2, List.append_assoc]
          · refine od_body_od _ ?_ (occ_append_ext_right _ _ hod2) ?_ ?_
              (dl_append _ _ (Or.inl rfl))
            · exact no_occ_append_dl _ _ _ hsp2 (Or.inl rfl) (by decide) (by decide)
                (by decide) (by decide)
            · exact no_occ_append_dl _ _ _ hred2 (Or.inl rfl) (by decide) (by decide)
                (by decide) (by decide)
            · exact no_occ_append_dl _ _ _ hview2 (Or.inl rfl) (by decide) (by decide)
                (by decide) (by decide)
        · refine second_pass _ a
            (replaceAll (pstr "view.aspx") (pstr "download.aspx")
              (replaceAll (pstr "redir") (pstr "download") b) ++ pstr "?download=1")
            ?_ hsch (append_last_49 _ _ (Or.inr rfl)) ?_
          · rw [hdec2, List.append_assoc]
          · refine od_body_od _ ?_ (occ_append_ext_right _ _ hod2) ?_ ?_
              (dl_append _ _ (Or.inr rfl))
            · exact no_occ_append_dl _ _ _ hsp2 (Or.inr rfl) (by decide) (by decide)
                (by decide) (by decide)
            · exact no_occ_append_dl _ _ _ hred2 (Or.inr rfl) (by decide) (by decide)
                (by decide) (by decide)
            · exact no_occ_append_dl _ _ _ hview2 (Or.inr rfl) (by decide) (by decide)
                (by decide) (by decide)
    · have hbody : od_body u = u := od_body_plain u hsp hod
      rw [hbody]
      exact second_pass u a b hab hsch hlast0 hbody
